import Mathlib

/-!
# Image converter (`src/script.js`): batch conversion core

A shallow embedding of the class `ImageConverter` of `src/script.js`.

* JavaScript numbers are IEEE-754 binary64 values.  `JSNum` carries the exact rational value
  of a finite double; `/` and `*` are the correctly rounded operations (round to nearest,
  ties to even, gradual underflow, overflow to infinity).  Negative zero is identified with
  zero: no divisor of this program can be `-0` (divisors are `img.width` and `img.height`).
* Strings are Lean strings; the regular expression of `generateFileName` is embedded as
  its matcher, the property read of `getMimeType` as a lookup that follows the prototype
  chain of an object literal.
* The stateful part (`uploadedFiles`, `convertedFiles`, `isConverting`, object URLs) is
  explicit state passing over `ConverterState`.  The platform (identifiers, image decoding,
  canvas encoding, the values of the page controls, page statements that throw) is an
  explicit environment `Env`.
* A call of `convertImages` is run to its end without another handler interleaving at its
  `await` points.  Page statements of `convertImages` may throw, as `Env.fault` says; the
  page statements of `processFiles`, `removeFile` and `clearAllFiles` (tiles, toasts) are
  taken to succeed.  `formatFileSize` only renders a label and is not embedded.
-/

namespace ImageConverter

/-! ## JavaScript numbers -/

/-- A JavaScript number: `NaN`, the two infinities, or a finite double given by its exact value. -/
inductive JSNum where
  | nan
  | posInf
  | negInf
  | fin (q : ℚ)
deriving DecidableEq

/-- Nearest natural number to `n / d`, ties to the even one. -/
def roundHalfEven (n d : Nat) : Nat :=
  if 2 * (n % d) < d then n / d
  else if d < 2 * (n % d) then n / d + 1
  else if (n / d) % 2 = 0 then n / d else n / d + 1

/-- The fraction `(n / d) / 2 ^ k` as a numerator and a denominator. -/
def scale (n d : Nat) (k : Int) : Nat × Nat :=
  if 0 ≤ k then (n, d * 2 ^ k.toNat) else (n * 2 ^ (-k).toNat, d)

/-- Position of the leading bit of `n`, searched with at most `fuel` halvings. -/
def log2Aux : Nat → Nat → Nat
  | 0, _ => 0
  | fuel + 1, n => if n < 2 then 0 else log2Aux fuel (n / 2) + 1

/-- The exponent `l` with `2 ^ l ≤ n < 2 ^ (l + 1)`, for positive `n`. -/
def log2 (n : Nat) : Nat := log2Aux n n

/-- The exponent `e` with `2 ^ e ≤ n / d < 2 ^ (e + 1)`, for positive `n` and `d`. -/
def binade (n d : Nat) : Int :=
  if (scale n d ((log2 n : Int) - (log2 d : Int))).1
      < (scale n d ((log2 n : Int) - (log2 d : Int))).2
  then (log2 n : Int) - (log2 d : Int) - 1
  else (log2 n : Int) - (log2 d : Int)

/-- Exponent of the unit in the last place of the binary64 numbers around `n / d`:
53 significant bits, smallest normal exponent `-1022`. -/
def ulpExp (n d : Nat) : Int :=
  max (binade n d) (-1022) - 52

/-- The rational `m * 2 ^ k`. -/
def dyadic (m : Nat) (k : Int) : ℚ :=
  if 0 ≤ k then ((m * 2 ^ k.toNat : Nat) : ℚ) else mkRat (m : Int) (2 ^ (-k).toNat)

/-- Significand (in units in the last place) of the double nearest to `n / d`. -/
def significand (n d : Nat) : Nat :=
  roundHalfEven (scale n d (ulpExp n d)).1 (scale n d (ulpExp n d)).2

/-- The binary64 number nearest to `± n / d` (ties to even); `2 ^ 1024` and above is infinite. -/
def roundDouble (neg : Bool) (n d : Nat) : JSNum :=
  if n = 0 then .fin 0
  else if 0 ≤ ulpExp n d ∧ 2 ^ 1024 ≤ significand n d * 2 ^ (ulpExp n d).toNat then
    (if neg then .negInf else .posInf)
  else if neg then .fin (-(dyadic (significand n d) (ulpExp n d)))
  else .fin (dyadic (significand n d) (ulpExp n d))

/-- Sign test on a rational. -/
def isNeg (q : ℚ) : Bool := decide (q.num < 0)

/-- JavaScript `a / b`. -/
def JSNum.div : JSNum → JSNum → JSNum
  | .nan, _ => .nan
  | _, .nan => .nan
  | .fin a, .fin b =>
    if b.num = 0 then
      (if a.num = 0 then .nan else if isNeg a then .negInf else .posInf)
    else roundDouble (isNeg a != isNeg b) (a.num.natAbs * b.den) (a.den * b.num.natAbs)
  | .fin _, _ => .fin 0
  | .posInf, .fin b => if isNeg b then .negInf else .posInf
  | .negInf, .fin b => if isNeg b then .posInf else .negInf
  | _, _ => .nan

/-- JavaScript `a * b`. -/
def JSNum.mul : JSNum → JSNum → JSNum
  | .nan, _ => .nan
  | _, .nan => .nan
  | .fin a, .fin b =>
    roundDouble (isNeg a != isNeg b) (a.num.natAbs * b.num.natAbs) (a.den * b.den)
  | .fin a, .posInf => if a.num = 0 then .nan else if isNeg a then .negInf else .posInf
  | .fin a, .negInf => if a.num = 0 then .nan else if isNeg a then .posInf else .negInf
  | .posInf, .fin b => if b.num = 0 then .nan else if isNeg b then .negInf else .posInf
  | .negInf, .fin b => if b.num = 0 then .nan else if isNeg b then .posInf else .negInf
  | .posInf, .posInf => .posInf
  | .negInf, .negInf => .posInf
  | .posInf, .negInf => .negInf
  | .negInf, .posInf => .negInf

/-- JavaScript `Math.round`: the nearest integer, ties towards `+∞`. -/
def JSNum.round : JSNum → JSNum
  | .fin q => .fin (((2 * q.num + q.den) / (2 * (q.den : Int)) : Int) : ℚ)
  | x => x

/-- A natural number as a JavaScript number. -/
def JSNum.ofNat (n : Nat) : JSNum := .fin (n : ℚ)

/-- The number is at least `1`. -/
def JSNum.atLeastOne : JSNum → Bool
  | .fin q => decide (1 ≤ q)
  | .posInf => true
  | _ => false

/-- An argument that may be `null` (the resize box is unchecked) or a number. -/
abbrev Target := Option JSNum

/-- The number held by a truthy argument: `null`, `NaN` and `0` are falsy. -/
def truthy : Target → Option JSNum
  | none => none
  | some .nan => none
  | some (.fin q) => if q.num = 0 then none else some (.fin q)
  | some x => some x

/-- Width and height of an output image. -/
structure Dimensions where
  width : JSNum
  height : JSNum
deriving DecidableEq

/-- The method `calculateDimensions(originalWidth, originalHeight, newWidth, newHeight)`. -/
def calculateDimensions (originalWidth originalHeight : JSNum) (newWidth newHeight : Target) :
    Dimensions :=
  match truthy newWidth, truthy newHeight with
  | none, none => { width := originalWidth, height := originalHeight }
  | some w, some h => { width := w, height := h }
  | some w, none =>
    { width := w, height := JSNum.round (JSNum.mul w (JSNum.div originalHeight originalWidth)) }
  | none, some h =>
    { width := JSNum.round (JSNum.mul h (JSNum.div originalWidth originalHeight)), height := h }

/-! ## Format resolver -/

/-- The character class `[^/.]`. -/
def isExtChar (c : Char) : Bool := c != '/' && c != '.'

/-- The pattern `\.[^/.]+$` matches at the head of the text: a dot, then one or more
characters of `[^/.]`, up to the end of the input. -/
def matchesExt : List Char → Bool
  | [] => false
  | c :: rest => c == '.' && !rest.isEmpty && rest.all isExtChar

/-- The call `text.replace(/\.[^/.]+$/, '')`: the leftmost match, which reaches the end of
the input, is removed; a text without a match is returned unchanged. -/
def stripExtension : List Char → List Char
  | [] => []
  | c :: rest => if matchesExt (c :: rest) then [] else c :: stripExtension rest

/-- The method `generateFileName(originalName, newFormat)`. -/
def generateFileName (originalName newFormat : String) : String :=
  ⟨stripExtension originalName.data ++ '.' :: newFormat.data⟩

/-- The text with everything from its last `.` to the end removed; a text without `.` is
returned unchanged.  This follows the words of the specification. -/
def dropFromLastDot : List Char → List Char
  | [] => []
  | c :: rest => if c = '.' ∧ '.' ∉ rest then [] else c :: dropFromLastDot rest

/-- The name the specification derives: extension dropped, then `.` and the format. -/
def deriveName (originalName format : String) : String :=
  ⟨dropFromLastDot originalName.data ++ '.' :: format.data⟩

/-- The part of the text after its last `.`, when there is one. -/
def afterLastDot : List Char → Option (List Char)
  | [] => none
  | c :: rest =>
    match afterLastDot rest with
    | some ext => some ext
    | none => if c = '.' then some rest else none

/-- The text has a last `.` followed by at least one character and no `/`. -/
def hasPlainExtension (text : List Char) : Bool :=
  match afterLastDot text with
  | some ext => !ext.isEmpty && !ext.contains '/'
  | none => false

/-- What a property read on the object literal `mimeTypes` can yield: a string, or a member
inherited from `Object.prototype` (a function or an object, never a string). -/
inductive MimeValue where
  | str (s : String)
  | inherited (key : String)
deriving DecidableEq

/-- The own properties of the object literal `mimeTypes`. -/
def mimeTypes : List (String × String) :=
  [("jpeg", "image/jpeg"), ("png", "image/png"), ("webp", "image/webp"),
   ("bmp", "image/bmp"), ("tiff", "image/tiff"), ("ico", "image/x-icon")]

/-- The property names every object literal inherits from `Object.prototype`
(ECMA-262, sections 20.1.3 and B.2.2); each holds a function or an object, hence is truthy. -/
def objectPrototypeKeys : List String :=
  ["constructor", "hasOwnProperty", "isPrototypeOf", "propertyIsEnumerable",
   "toLocaleString", "toString", "valueOf", "__proto__", "__defineGetter__",
   "__defineSetter__", "__lookupGetter__", "__lookupSetter__"]

/-- The method `getMimeType(format)`: `mimeTypes[format] || 'image/png'`.  The read finds
an own property first, then the prototype chain; every value found is truthy. -/
def getMimeType (format : String) : MimeValue :=
  match mimeTypes.lookup format with
  | some mime => .str mime
  | none => if objectPrototypeKeys.contains format then .inherited format else .str "image/png"

/-! ## Registry state and platform -/

/-- A browser `File`: the fields the program reads. -/
structure File where
  name : String
  size : Nat
  type : String
deriving DecidableEq

/-- A record of `uploadedFiles` (built by `addFileToList`); `url` is the object URL.
The display label `size` (from `formatFileSize`) is a function of `file.size` and is left out. -/
structure FileData where
  id : Nat
  file : File
  name : String
  type : String
  url : Nat
deriving DecidableEq

/-- The identity of an upload for duplicate suppression: the name and the size of the file. -/
def fileKey (f : FileData) : String × Nat := (f.file.name, f.file.size)

/-- An encoded output, as far as the program reads it. -/
structure Blob where
  size : Nat
deriving DecidableEq

/-- A record of `convertedFiles` (built by `convertSingleImage`); `size` is `blob.size`. -/
structure ConvertedFile where
  id : Nat
  name : String
  size : Nat
  type : MimeValue
  format : String
  url : Nat
  blob : Blob
  dimensions : Dimensions
deriving DecidableEq

/-- What a run of `convertImages` does that can be observed from outside. -/
inductive Event where
  | progress (completed total : Nat)
  | attempt (index : Nat) (source : FileData)
  | settled (index : Nat) (resolved : Bool)
deriving DecidableEq

/-- The fields of `ImageConverter` together with the browser's object-URL store:
`live` holds the URLs created and not revoked, `revoked` logs every `revokeObjectURL` call,
`nextUrl` is the next URL `createObjectURL` hands out, `nextId` counts the identifiers drawn. -/
structure ConverterState where
  uploadedFiles : List FileData
  convertedFiles : List ConvertedFile
  isConverting : Bool
  live : List Nat
  revoked : List Nat
  nextUrl : Nat
  nextId : Nat
  trace : List Event
deriving DecidableEq

/-- The state the constructor leaves. -/
def ConverterState.init : ConverterState :=
  { uploadedFiles := [], convertedFiles := [], isConverting := false,
    live := [], revoked := [], nextUrl := 0, nextId := 0, trace := [] }

/-- The statements of `convertImages` that touch the page and can raise a fault, by the
source line they stand on. -/
inductive Step where
  | convertBtn
  | outputFormat
  | qualitySlider
  | resizeCheckbox
  | widthInput
  | heightInput
  | showProgressModal
  | resultsGrid
  | updateProgress (index : Nat)
  | createResultItem (index : Nat)
  | itemToast (index : Nat)
  | finish
  | recover
deriving DecidableEq

/-- The platform around one call: identifiers (`Date.now() + Math.random()`), image
decoding (`img.onload` with the natural size, or `img.onerror`), canvas drawing and
`toBlob` (a blob, or a failure), the values of the page controls, the Unicode case mapping
`String.prototype.toUpperCase` of the runtime, and the page statements that raise a fault. -/
structure Env where
  freshId : Nat → Nat
  decode : FileData → Option (JSNum × JSNum)
  encode : FileData → Dimensions → MimeValue → JSNum → Option Blob
  outputFormat : String
  qualitySlider : JSNum
  resizeChecked : Bool
  widthInput : JSNum
  heightInput : JSNum
  toUpperCase : String → String
  fault : Step → Bool

/-- How the promise of an `async` method settles. -/
inductive Completion where
  | fulfilled
  | rejected
deriving DecidableEq

/-- The call `URL.createObjectURL`: a fresh URL enters the store. -/
def createObjectURL (s : ConverterState) : ConverterState × Nat :=
  ({ s with live := s.live ++ [s.nextUrl], nextUrl := s.nextUrl + 1 }, s.nextUrl)

/-- The call `URL.revokeObjectURL(url)`. -/
def revokeObjectURL (s : ConverterState) (url : Nat) : ConverterState :=
  { s with live := s.live.filter (fun u => u != url), revoked := s.revoked ++ [url] }

/-! ## File registry -/

/-- The method `addFileToList(file)`. -/
def addFileToList (env : Env) (s : ConverterState) (file : File) : ConverterState :=
  { s with
    uploadedFiles := s.uploadedFiles ++
      [{ id := env.freshId s.nextId, file := file, name := file.name, type := file.type,
         url := s.nextUrl }],
    live := s.live ++ [s.nextUrl],
    nextUrl := s.nextUrl + 1,
    nextId := s.nextId + 1 }

/-- The test `file.type.startsWith('image/')`. -/
def isImage (file : File) : Bool := "image/".data.isPrefixOf file.type.data

/-- The method `processFiles(files)`. -/
def processFiles (env : Env) (s : ConverterState) (files : List File) : ConverterState :=
  if (files.filter isImage).length = 0 then s
  else (files.filter isImage).foldl (fun st file =>
    if (st.uploadedFiles.find? (fun f => f.file.name = file.name && f.file.size = file.size)).isSome
    then st else addFileToList env st file) s

/-- The pair `findIndex` / `splice(index, 1)`: the first record satisfying the test is taken
out of the list. -/
def spliceFirst (p : FileData → Bool) : List FileData → Option (FileData × List FileData)
  | [] => none
  | f :: rest =>
    if p f then some (f, rest)
    else match spliceFirst p rest with
      | some (g, rest') => some (g, f :: rest')
      | none => none

/-- The method `removeFile(fileId)`. -/
def removeFile (s : ConverterState) (fileId : Nat) : ConverterState :=
  match spliceFirst (fun f => f.id == fileId) s.uploadedFiles with
  | some (f, rest) => { revokeObjectURL s f.url with uploadedFiles := rest }
  | none => s

/-- A `forEach` that revokes the URL of every record. -/
def revokeAll (urls : List Nat) (s : ConverterState) : ConverterState :=
  urls.foldl revokeObjectURL s

/-- The method `clearAllFiles()`. -/
def clearAllFiles (s : ConverterState) : ConverterState :=
  { revokeAll (s.convertedFiles.map (fun f => f.url))
      { revokeAll (s.uploadedFiles.map (fun f => f.url)) s with uploadedFiles := [] }
    with convertedFiles := [] }

/-! ## Conversion engine and batch orchestrator -/

/-- The method `convertSingleImage(fileData, outputFormat, quality, newWidth, newHeight)`:
the new state and the record the promise resolves with, or `none` when it rejects. -/
def convertSingleImage (env : Env) (s : ConverterState) (fileData : FileData)
    (outputFormat : String) (quality : JSNum) (newWidth newHeight : Target) :
    ConverterState × Option ConvertedFile :=
  match env.decode fileData with
  | none => (s, none)
  | some (imgWidth, imgHeight) =>
    match env.encode fileData (calculateDimensions imgWidth imgHeight newWidth newHeight)
        (getMimeType outputFormat) quality with
    | none => (s, none)
    | some blob =>
      ({ (createObjectURL s).1 with nextId := s.nextId + 1 },
       some { id := env.freshId s.nextId,
              name := generateFileName fileData.name outputFormat,
              size := blob.size,
              type := getMimeType outputFormat,
              format := env.toUpperCase outputFormat,
              url := (createObjectURL s).2,
              blob := blob,
              dimensions := calculateDimensions imgWidth imgHeight newWidth newHeight })

/-- The `for` loop of `convertImages` from index `i` on, over the records still to convert;
the flag tells that a fault left the loop towards the outer `catch`. -/
def convertLoop (env : Env) (outputFormat : String) (quality : JSNum) (newWidth newHeight : Target)
    (totalFiles : Nat) : Nat → List FileData → ConverterState → ConverterState × Bool
  | _, [], s => (s, false)
  | i, fileData :: rest, s =>
    if env.fault (.updateProgress i) then (s, true)
    else
      match convertSingleImage env
          { s with trace := s.trace ++ [.progress (i + 1) totalFiles, .attempt i fileData] }
          fileData outputFormat quality newWidth newHeight with
      | (s', some convertedFile) =>
        if env.fault (.createResultItem i) && env.fault (.itemToast i) then
          ({ s' with convertedFiles := s'.convertedFiles ++ [convertedFile],
                     trace := s'.trace ++ [.settled i true] }, true)
        else
          convertLoop env outputFormat quality newWidth newHeight totalFiles (i + 1) rest
            { s' with convertedFiles := s'.convertedFiles ++ [convertedFile],
                      trace := s'.trace ++ [.settled i true] }
      | (s', none) =>
        if env.fault (.itemToast i) then
          ({ s' with trace := s'.trace ++ [.settled i false] }, true)
        else
          convertLoop env outputFormat quality newWidth newHeight totalFiles (i + 1) rest
            { s' with trace := s'.trace ++ [.settled i false] }

/-- The statements between `this.isConverting = true` and `try` (lines 309 to 322) that are
executed for the given state of the resize box. -/
def setupSteps (resizeChecked : Bool) : List Step :=
  [.convertBtn, .outputFormat, .qualitySlider, .resizeCheckbox] ++
  (if resizeChecked then [.widthInput, .heightInput] else []) ++ [.showProgressModal]

/-- Line 316: `parseInt(qualitySlider.value) / 100`. -/
def Env.quality (env : Env) : JSNum := JSNum.div env.qualitySlider (JSNum.ofNat 100)

/-- Line 318: `shouldResize ? parseInt(widthInput.value) : null`. -/
def Env.newWidth (env : Env) : Target := if env.resizeChecked then some env.widthInput else none

/-- Line 319: `shouldResize ? parseInt(heightInput.value) : null`. -/
def Env.newHeight (env : Env) : Target := if env.resizeChecked then some env.heightInput else none

/-- The body of the `try` block of `convertImages`; the flag tells that a fault was thrown. -/
def tryBlock (env : Env) (s : ConverterState) : ConverterState × Bool :=
  if env.fault .resultsGrid then
    ({ revokeAll (s.convertedFiles.map (fun f => f.url)) s with convertedFiles := [] }, true)
  else
    match convertLoop env env.outputFormat env.quality env.newWidth env.newHeight
        s.uploadedFiles.length 0 s.uploadedFiles
        { revokeAll (s.convertedFiles.map (fun f => f.url)) s with convertedFiles := [] } with
    | (s', true) => (s', true)
    | (s', false) => (s', env.fault .finish)

/-- The method `convertImages()`, run without another handler interleaving at its `await`s. -/
def convertImages (env : Env) (s : ConverterState) : ConverterState × Completion :=
  if s.isConverting || s.uploadedFiles.length == 0 then (s, .fulfilled)
  else if (setupSteps env.resizeChecked).any env.fault then
    ({ s with isConverting := true }, .rejected)
  else
    ({ (tryBlock env { s with isConverting := true }).1 with isConverting := false },
     if (tryBlock env { s with isConverting := true }).2 && env.fault .recover
     then .rejected else .fulfilled)

/-- The public operations of the registry and the orchestrator. -/
inductive Op where
  | processFiles (files : List File)
  | removeFile (fileId : Nat)
  | clearAllFiles
  | convertImages

/-- One call of a public operation, on the platform it runs on. -/
def step (s : ConverterState) (call : Env × Op) : ConverterState :=
  match call.2 with
  | .processFiles files => processFiles call.1 s files
  | .removeFile fileId => removeFile s fileId
  | .clearAllFiles => clearAllFiles s
  | .convertImages => (convertImages call.1 s).1

/-- A sequence of calls. -/
def run (calls : List (Env × Op)) (s : ConverterState) : ConverterState :=
  calls.foldl step s

/-- The object URLs held by the records of the two lists. -/
def heldUrls (s : ConverterState) : List Nat :=
  s.uploadedFiles.map (fun f => f.url) ++ s.convertedFiles.map (fun f => f.url)

/-! ## The handle invariant -/

/-- The object-URL store agrees with the handles `held` by the records: the live URLs are
exactly the held ones, each once; no URL was revoked twice; revoked URLs are not live; and
every URL handed out so far is below the next fresh one. -/
def StoreOk (held live revoked : List Nat) (nextUrl : Nat) : Prop :=
  live.Perm held ∧ live.Nodup ∧ revoked.Nodup ∧
  (∀ u ∈ live, u < nextUrl) ∧ (∀ u ∈ revoked, u < nextUrl) ∧ (∀ u ∈ revoked, u ∉ live)

/-- The handle invariant of a registry state. -/
def Inv (s : ConverterState) : Prop :=
  StoreOk (heldUrls s) s.live s.revoked s.nextUrl

/-! ## Specification-side notions for a batch run -/

/-- What converting one source yields on this platform, apart from the identifier and the
object URL: the blob and the output size, or `none` when decoding or encoding fails. -/
def outcome (env : Env) (fileData : FileData) : Option (Blob × Dimensions) :=
  match env.decode fileData with
  | none => none
  | some (imgWidth, imgHeight) =>
    match env.encode fileData (calculateDimensions imgWidth imgHeight env.newWidth env.newHeight)
        (getMimeType env.outputFormat) env.quality with
    | none => none
    | some blob => some (blob, calculateDimensions imgWidth imgHeight env.newWidth env.newHeight)

/-- The record of a resolved conversion that drew identifier number `idIndex` and was
handed the object URL `url`. -/
def resultRecord (env : Env) (fileData : FileData) (blob : Blob) (dims : Dimensions)
    (idIndex url : Nat) : ConvertedFile :=
  { id := env.freshId idIndex,
    name := generateFileName fileData.name env.outputFormat,
    size := blob.size,
    type := getMimeType env.outputFormat,
    format := env.toUpperCase env.outputFormat,
    url := url,
    blob := blob,
    dimensions := dims }

/-- The sources that resolve, in list order, each with its output. -/
def resolved (env : Env) (files : List FileData) : List (FileData × Blob × Dimensions) :=
  files.filterMap (fun fileData => (outcome env fileData).map (fun out => (fileData, out.1, out.2)))

/-- The records of the resolved sources, numbered from the given identifier index and URL. -/
def numberRecords (env : Env) : Nat → Nat → List (FileData × Blob × Dimensions) → List ConvertedFile
  | _, _, [] => []
  | idIndex, url, (fileData, blob, dims) :: rest =>
    resultRecord env fileData blob dims idIndex url :: numberRecords env (idIndex + 1) (url + 1) rest

/-- The sources whose conversion was attempted, in the order of the attempts. -/
def attempts (trace : List Event) : List FileData :=
  trace.filterMap (fun e => match e with
    | .attempt _ source => some source
    | _ => none)

/-! ## Concrete platforms and states used to evaluate the model -/

/-- A platform on which every page statement works and every conversion resolves.  Its
format is `png`, an ASCII text, on which `toUpperCase` is the ASCII mapping given here. -/
def quietEnv : Env :=
  { freshId := fun k => k,
    decode := fun _ => some (JSNum.ofNat 4, JSNum.ofNat 3),
    encode := fun _ _ _ _ => some { size := 10 },
    outputFormat := "png",
    qualitySlider := JSNum.ofNat 90,
    resizeChecked := false,
    widthInput := JSNum.nan,
    heightInput := JSNum.nan,
    toUpperCase := fun text => text.toUpper,
    fault := fun _ => false }

/-- The platform `quietEnv`, except that the image named `b.png` fails to decode. -/
def secondFailsEnv : Env :=
  { quietEnv with decode := fun f => if f.name = "b.png" then none else some (JSNum.ofNat 4, JSNum.ofNat 3) }

/-- The platform `quietEnv`, except that the page has no `output-format` control, so that
line 315 raises a `TypeError`. -/
def missingControlEnv : Env :=
  { quietEnv with fault := fun st => decide (st = Step.outputFormat) }

/-- Three image files. -/
def threeFiles : List File :=
  [{ name := "a.png", size := 1, type := "image/png" },
   { name := "b.png", size := 2, type := "image/png" },
   { name := "c.png", size := 3, type := "image/png" }]

/-- The state after the three files were uploaded. -/
def threeUploaded : ConverterState := processFiles quietEnv ConverterState.init threeFiles

/-- The state `threeUploaded` while a batch is running. -/
def busyState : ConverterState := { threeUploaded with isConverting := true }

/-- The state after the three uploads were converted and then removed one by one: results
are held, no source is registered. -/
def resultsOnlyState : ConverterState :=
  removeFile (removeFile (removeFile (convertImages quietEnv threeUploaded).1 0) 1) 2

/-! ## Progress events of a run -/

/-- The events come in one triple per item, numbered from `k`: the progress report
`k + 1` of `total`, then the attempt on item `k`, then its settling. -/
def itemTriples (total : Nat) : Nat → List Event → Bool
  | _, [] => true
  | k, .progress c n :: .attempt i _ :: .settled j _ :: rest =>
    c == k + 1 && n == total && i == k && j == k && itemTriples total (k + 1) rest
  | _, _ => false

/-- The events of a run that goes through all the given sources, numbered from `i`: for
each source the progress report, the attempt, and the settling, resolved or not. -/
def runEvents (env : Env) (total : Nat) : Nat → List FileData → List Event
  | _, [] => []
  | i, fileData :: rest =>
    Event.progress (i + 1) total :: Event.attempt i fileData ::
      Event.settled i (outcome env fileData).isSome :: runEvents env total (i + 1) rest

/-- No progress report states a completed count above the number of conversions settled
before it, `k` of them having settled before the first event.  This follows the words of
the specification. -/
def reportedWithinSettled : Nat → List Event → Bool
  | _, [] => true
  | k, .progress c _ :: rest => decide (c ≤ k) && reportedWithinSettled k rest
  | k, .attempt _ _ :: rest => reportedWithinSettled k rest
  | k, .settled _ _ :: rest => reportedWithinSettled (k + 1) rest

/-! ## Exact arithmetic, for comparison -/

/-- The relative rounding error of binary64: `2 ^ (-53)`. -/
def unitRoundoff : ℚ := 1 / 2 ^ 53

/-- Rounding of the exact quotient `n / d` to the nearest integer, ties rounded up. -/
def exactRound (n d : Nat) : Int := ⌊(n : ℚ) / (d : ℚ) + 1 / 2⌋

/-- The exact quotient `n / d` lies halfway between two consecutive integers. -/
def isHalfway (n d : Nat) : Prop := ((exactRound n d : Int) : ℚ) = (n : ℚ) / (d : ℚ) + 1 / 2

instance (n d : Nat) : Decidable (isHalfway n d) := by
  unfold isHalfway; infer_instance

/-! ## Binary64 rounding: error bounds -/

theorem log2Aux_spec : ∀ (fuel n : Nat), 0 < n → n ≤ fuel →
    2 ^ log2Aux fuel n ≤ n ∧ n < 2 ^ (log2Aux fuel n + 1)
  | 0, n, hn, hf => by omega
  | fuel + 1, n, hn, hf => by
    unfold log2Aux
    by_cases h2 : n < 2
    · simp only [h2, if_true]
      omega
    · simp only [h2, if_false]
      have ih := log2Aux_spec fuel (n / 2) (by omega) (by omega)
      rw [pow_succ, pow_succ]
      omega

theorem log2_spec (n : Nat) (hn : 0 < n) : 2 ^ log2 n ≤ n ∧ n < 2 ^ (log2 n + 1) :=
  log2Aux_spec n n hn (le_refl n)

theorem scale_snd_pos (n d : Nat) (k : Int) (hd : 0 < d) : 0 < (scale n d k).2 := by
  unfold scale
  split
  · exact Nat.mul_pos hd (pow_pos (by norm_num) _)
  · exact hd

theorem scale_spec (n d : Nat) (k : Int) (hd : 0 < d) :
    ((scale n d k).1 : ℚ) / ((scale n d k).2 : ℚ) = ((n : ℚ) / (d : ℚ)) / (2 : ℚ) ^ k := by
  have hd' : (d : ℚ) ≠ 0 := by exact_mod_cast hd.ne'
  unfold scale
  split
  · rename_i hk
    obtain ⟨j, rfl⟩ := Int.eq_ofNat_of_zero_le hk
    simp only [Int.toNat_ofNat, zpow_natCast]
    push_cast
    field_simp
  · rename_i hk
    obtain ⟨j, hj⟩ := Int.eq_ofNat_of_zero_le (show (0 : Int) ≤ -k by omega)
    have hk' : k = -(j : Int) := by omega
    subst hk'
    simp only [neg_neg, Int.toNat_ofNat, zpow_neg, zpow_natCast]
    push_cast
    field_simp

theorem dyadic_spec (m : Nat) (k : Int) : dyadic m k = (m : ℚ) * (2 : ℚ) ^ k := by
  unfold dyadic
  split
  · rename_i hk
    obtain ⟨j, rfl⟩ := Int.eq_ofNat_of_zero_le hk
    simp only [Int.toNat_ofNat, zpow_natCast]
    push_cast
    rfl
  · rename_i hk
    obtain ⟨j, hj⟩ := Int.eq_ofNat_of_zero_le (show (0 : Int) ≤ -k by omega)
    have hk' : k = -(j : Int) := by omega
    subst hk'
    simp only [neg_neg, Int.toNat_ofNat, zpow_neg, zpow_natCast]
    rw [Rat.mkRat_eq_div]
    push_cast
    rw [div_eq_mul_inv]

theorem roundHalfEven_spec (n d : Nat) (hd : 0 < d) :
    2 * (roundHalfEven n d * d) ≤ 2 * n + d ∧ 2 * n ≤ 2 * (roundHalfEven n d * d) + d := by
  have h1 := Nat.div_add_mod n d
  have h2 := Nat.mod_lt n hd
  have h3 : (n / d + 1) * d = d * (n / d) + d := by ring
  have h4 : (n / d) * d = d * (n / d) := by ring
  unfold roundHalfEven
  split
  · rw [h4]; omega
  · split
    · rw [h3]; omega
    · split
      · rw [h4]; omega
      · rw [h3]; omega

theorem binade_spec (n d : Nat) (hn : 0 < n) (hd : 0 < d) :
    (2 : ℚ) ^ binade n d ≤ (n : ℚ) / (d : ℚ) ∧ (n : ℚ) / (d : ℚ) < (2 : ℚ) ^ (binade n d + 1) := by
  have hd' : (0 : ℚ) < (d : ℚ) := by exact_mod_cast hd
  have h2 : (0 : ℚ) < 2 := by norm_num
  obtain ⟨hn1, hn2⟩ := log2_spec n hn
  obtain ⟨hd1, hd2⟩ := log2_spec d hd
  have hn1' : (2 : ℚ) ^ (log2 n : Int) ≤ (n : ℚ) := by
    rw [zpow_natCast]; exact_mod_cast hn1
  have hn2' : (n : ℚ) < (2 : ℚ) ^ ((log2 n : Int) + 1) := by
    rw [show ((log2 n : Int) + 1) = ((log2 n + 1 : Nat) : Int) by push_cast; rfl, zpow_natCast]
    exact_mod_cast hn2
  have hd1' : (2 : ℚ) ^ (log2 d : Int) ≤ (d : ℚ) := by
    rw [zpow_natCast]; exact_mod_cast hd1
  have hd2' : (d : ℚ) < (2 : ℚ) ^ ((log2 d : Int) + 1) := by
    rw [show ((log2 d : Int) + 1) = ((log2 d + 1 : Nat) : Int) by push_cast; rfl, zpow_natCast]
    exact_mod_cast hd2
  have hpd : (0 : ℚ) < (2 : ℚ) ^ (log2 d : Int) := zpow_pos h2 _
  -- lower and upper estimates of the quotient
  have hlow : (2 : ℚ) ^ ((log2 n : Int) - (log2 d : Int) - 1) ≤ (n : ℚ) / (d : ℚ) := by
    rw [le_div_iff₀ hd']
    have : (2 : ℚ) ^ ((log2 n : Int) - (log2 d : Int) - 1) * (2 : ℚ) ^ ((log2 d : Int) + 1)
        = (2 : ℚ) ^ (log2 n : Int) := by
      rw [← zpow_add₀ (by norm_num : (2 : ℚ) ≠ 0)]; congr 1; ring
    calc (2 : ℚ) ^ ((log2 n : Int) - (log2 d : Int) - 1) * (d : ℚ)
        ≤ (2 : ℚ) ^ ((log2 n : Int) - (log2 d : Int) - 1) * (2 : ℚ) ^ ((log2 d : Int) + 1) :=
          mul_le_mul_of_nonneg_left hd2'.le (zpow_pos h2 _).le
      _ = (2 : ℚ) ^ (log2 n : Int) := this
      _ ≤ (n : ℚ) := hn1'
  have hupp : (n : ℚ) / (d : ℚ) < (2 : ℚ) ^ ((log2 n : Int) - (log2 d : Int) + 1) := by
    rw [div_lt_iff₀ hd']
    have : (2 : ℚ) ^ ((log2 n : Int) - (log2 d : Int) + 1) * (2 : ℚ) ^ (log2 d : Int)
        = (2 : ℚ) ^ ((log2 n : Int) + 1) := by
      rw [← zpow_add₀ (by norm_num : (2 : ℚ) ≠ 0)]; congr 1; ring
    calc (n : ℚ) < (2 : ℚ) ^ ((log2 n : Int) + 1) := hn2'
      _ = (2 : ℚ) ^ ((log2 n : Int) - (log2 d : Int) + 1) * (2 : ℚ) ^ (log2 d : Int) := this.symm
      _ ≤ (2 : ℚ) ^ ((log2 n : Int) - (log2 d : Int) + 1) * (d : ℚ) :=
          mul_le_mul_of_nonneg_left hd1' (zpow_pos h2 _).le
  have hs := scale_spec n d ((log2 n : Int) - (log2 d : Int)) hd
  have hsp := scale_snd_pos n d ((log2 n : Int) - (log2 d : Int)) hd
  have hsp' : (0 : ℚ) < ((scale n d ((log2 n : Int) - (log2 d : Int))).2 : ℚ) := by
    exact_mod_cast hsp
  have hp : (0 : ℚ) < (2 : ℚ) ^ ((log2 n : Int) - (log2 d : Int)) := zpow_pos h2 _
  have hiff : (scale n d ((log2 n : Int) - (log2 d : Int))).1
        < (scale n d ((log2 n : Int) - (log2 d : Int))).2
      ↔ (n : ℚ) / (d : ℚ) < (2 : ℚ) ^ ((log2 n : Int) - (log2 d : Int)) := by
    constructor
    · intro hlt
      have hc : ((scale n d ((log2 n : Int) - (log2 d : Int))).1 : ℚ)
          < ((scale n d ((log2 n : Int) - (log2 d : Int))).2 : ℚ) := by exact_mod_cast hlt
      rwa [← div_lt_one hsp', hs, div_lt_one hp] at hc
    · intro hlt
      have hc : ((scale n d ((log2 n : Int) - (log2 d : Int))).1 : ℚ)
          < ((scale n d ((log2 n : Int) - (log2 d : Int))).2 : ℚ) := by
        rwa [← div_lt_one hsp', hs, div_lt_one hp]
      exact_mod_cast hc
  unfold binade
  split
  · rename_i hlt
    refine ⟨hlow, ?_⟩
    rw [show (log2 n : Int) - (log2 d : Int) - 1 + 1 = (log2 n : Int) - (log2 d : Int) by ring]
    exact hiff.1 hlt
  · rename_i hlt
    exact ⟨not_lt.1 (fun h => hlt (hiff.2 h)), hupp⟩

theorem roundDouble_pos (n d : Nat) (hn : 0 < n) (hd : 0 < d)
    (hlo : (2 : ℚ) ^ (-1022 : Int) ≤ (n : ℚ) / (d : ℚ))
    (hhi : (n : ℚ) / (d : ℚ) < (2 : ℚ) ^ (1023 : Int)) :
    ∃ r : ℚ, roundDouble false n d = .fin r ∧
      (n : ℚ) / (d : ℚ) * (1 - unitRoundoff) ≤ r ∧ r ≤ (n : ℚ) / (d : ℚ) * (1 + unitRoundoff) := by
  have h2 : (0 : ℚ) < 2 := by norm_num
  have h2' : (2 : ℚ) ≠ 0 := by norm_num
  obtain ⟨hb1, hb2⟩ := binade_spec n d hn hd
  have he : (-1022 : Int) ≤ binade n d := by
    have : (2 : ℚ) ^ (-1022 : Int) < (2 : ℚ) ^ (binade n d + 1) := lt_of_le_of_lt hlo hb2
    have := (zpow_lt_zpow_iff_right₀ (by norm_num : (1 : ℚ) < 2)).1 this
    omega
  have hk : ulpExp n d = binade n d - 52 := by
    unfold ulpExp; rw [max_eq_left he]
  have hs := scale_spec n d (ulpExp n d) hd
  have hsp := scale_snd_pos n d (ulpExp n d) hd
  have hsp' : (0 : ℚ) < ((scale n d (ulpExp n d)).2 : ℚ) := by exact_mod_cast hsp
  obtain ⟨hr1, hr2⟩ := roundHalfEven_spec (scale n d (ulpExp n d)).1 (scale n d (ulpExp n d)).2 hsp
  have hr1' : (2 : ℚ) * ((significand n d : ℚ) * ((scale n d (ulpExp n d)).2 : ℚ))
      ≤ 2 * ((scale n d (ulpExp n d)).1 : ℚ) + ((scale n d (ulpExp n d)).2 : ℚ) := by
    unfold significand; exact_mod_cast hr1
  have hr2' : (2 : ℚ) * ((scale n d (ulpExp n d)).1 : ℚ)
      ≤ 2 * ((significand n d : ℚ) * ((scale n d (ulpExp n d)).2 : ℚ))
        + ((scale n d (ulpExp n d)).2 : ℚ) := by
    unfold significand; exact_mod_cast hr2
  have hpk : (0 : ℚ) < (2 : ℚ) ^ ulpExp n d := zpow_pos h2 _
  -- the scaled quotient
  have hq : ((scale n d (ulpExp n d)).1 : ℚ)
      = (n : ℚ) / (d : ℚ) / (2 : ℚ) ^ ulpExp n d * ((scale n d (ulpExp n d)).2 : ℚ) := by
    rw [← hs]; field_simp
  have hm1 : (significand n d : ℚ) ≤ (n : ℚ) / (d : ℚ) / (2 : ℚ) ^ ulpExp n d + 1 / 2 := by
    rw [hq] at hr1'
    have := (mul_le_mul_right hsp').1 (show (2 * (significand n d : ℚ)) * ((scale n d (ulpExp n d)).2 : ℚ)
      ≤ (2 * ((n : ℚ) / (d : ℚ) / (2 : ℚ) ^ ulpExp n d) + 1) * ((scale n d (ulpExp n d)).2 : ℚ) by linarith)
    linarith
  have hm2 : (n : ℚ) / (d : ℚ) / (2 : ℚ) ^ ulpExp n d - 1 / 2 ≤ (significand n d : ℚ) := by
    rw [hq] at hr2'
    have := (mul_le_mul_right hsp').1 (show (2 * ((n : ℚ) / (d : ℚ) / (2 : ℚ) ^ ulpExp n d) - 1) * ((scale n d (ulpExp n d)).2 : ℚ)
      ≤ (2 * (significand n d : ℚ)) * ((scale n d (ulpExp n d)).2 : ℚ) by linarith)
    linarith
  -- half a unit in the last place is at most the relative error bound
  have hulp : (2 : ℚ) ^ ulpExp n d / 2 ≤ (n : ℚ) / (d : ℚ) * unitRoundoff := by
    have : (2 : ℚ) ^ ulpExp n d / 2 = (2 : ℚ) ^ binade n d * unitRoundoff := by
      rw [hk, show binade n d - 52 = binade n d + (-52 : Int) by ring, zpow_add₀ h2']
      unfold unitRoundoff
      norm_num
      ring
    rw [this]
    exact mul_le_mul_of_nonneg_right hb1 (by unfold unitRoundoff; positivity)
  have hval : dyadic (significand n d) (ulpExp n d)
      = (significand n d : ℚ) * (2 : ℚ) ^ ulpExp n d := dyadic_spec _ _
  have hx : (n : ℚ) / (d : ℚ) = (n : ℚ) / (d : ℚ) / (2 : ℚ) ^ ulpExp n d * (2 : ℚ) ^ ulpExp n d := by
    rw [div_mul_cancel₀ _ hpk.ne']
  have hupper : dyadic (significand n d) (ulpExp n d)
      ≤ (n : ℚ) / (d : ℚ) * (1 + unitRoundoff) := by
    rw [hval]
    have := mul_le_mul_of_nonneg_right hm1 hpk.le
    rw [add_mul, ← hx] at this
    linarith
  have hlower : (n : ℚ) / (d : ℚ) * (1 - unitRoundoff)
      ≤ dyadic (significand n d) (ulpExp n d) := by
    rw [hval]
    have := mul_le_mul_of_nonneg_right hm2 hpk.le
    rw [sub_mul, ← hx] at this
    linarith
  refine ⟨dyadic (significand n d) (ulpExp n d), ?_, hlower, hupper⟩
  unfold roundDouble
  rw [if_neg hn.ne', if_neg, if_neg (by simp)]
  rintro ⟨hk0, hov⟩
  have hov' : (2 : ℚ) ^ (1024 : Nat) ≤ dyadic (significand n d) (ulpExp n d) := by
    unfold dyadic
    rw [if_pos hk0]
    calc (2 : ℚ) ^ (1024 : Nat) = (((2 : Nat) ^ (1024 : Nat) : Nat) : ℚ) := by
          rw [Nat.cast_pow, Nat.cast_ofNat]
      _ ≤ _ := Nat.cast_le.2 hov
  have hlt : (n : ℚ) / (d : ℚ) * (1 + unitRoundoff) < (2 : ℚ) ^ (1024 : Nat) := by
    have h1 : (n : ℚ) / (d : ℚ) * (1 + unitRoundoff) < (2 : ℚ) ^ (1023 : Int) * 2 := by
      have hx0 : (0 : ℚ) < (n : ℚ) / (d : ℚ) := lt_of_lt_of_le (zpow_pos h2 _) hlo
      have hu : (1 : ℚ) + unitRoundoff ≤ 2 := by unfold unitRoundoff; norm_num
      calc (n : ℚ) / (d : ℚ) * (1 + unitRoundoff) ≤ (n : ℚ) / (d : ℚ) * 2 :=
            mul_le_mul_of_nonneg_left hu hx0.le
        _ < (2 : ℚ) ^ (1023 : Int) * 2 := by linarith
    have h3 : (2 : ℚ) ^ (1023 : Int) * 2 = (2 : ℚ) ^ (1024 : Nat) := by
      rw [show (1023 : Int) = ((1023 : Nat) : Int) by rfl, zpow_natCast, ← pow_succ]
    rw [h3] at h1
    exact h1
  linarith

theorem natAbs_num_cast (a : ℚ) (ha : 0 < a) : ((a.num.natAbs : Nat) : ℚ) = (a.num : ℚ) := by
  have h : 0 ≤ a.num := (Rat.num_pos.2 ha).le
  have h1 : ((a.num.natAbs : Nat) : Int) = a.num := Int.natAbs_of_nonneg h
  have h2 : (((a.num.natAbs : Nat) : Int) : ℚ) = (a.num : ℚ) := by rw [h1]
  rw [← h2, Int.cast_natCast]

theorem isNeg_of_pos (a : ℚ) (ha : 0 < a) : isNeg a = false := by
  unfold isNeg
  have h : 0 < a.num := Rat.num_pos.2 ha
  simp only [decide_eq_false_iff_not, not_lt]
  exact h.le

theorem div_fin_pos (a b : ℚ) (ha : 0 < a) (hb : 0 < b)
    (hlo : (2 : ℚ) ^ (-1022 : Int) ≤ a / b) (hhi : a / b < (2 : ℚ) ^ (1023 : Int)) :
    ∃ r : ℚ, JSNum.div (.fin a) (.fin b) = .fin r ∧
      a / b * (1 - unitRoundoff) ≤ r ∧ r ≤ a / b * (1 + unitRoundoff) := by
  have han : 0 < a.num := Rat.num_pos.2 ha
  have hbn : 0 < b.num := Rat.num_pos.2 hb
  have hfrac : ((a.num.natAbs * b.den : Nat) : ℚ) / ((a.den * b.num.natAbs : Nat) : ℚ) = a / b := by
    push_cast
    rw [natAbs_num_cast a ha, natAbs_num_cast b hb]
    conv_rhs => rw [← Rat.num_div_den a, ← Rat.num_div_den b]
    have h1 : (a.den : ℚ) ≠ 0 := by exact_mod_cast a.den_nz
    have h2 : (b.den : ℚ) ≠ 0 := by exact_mod_cast b.den_nz
    have h3 : (b.num : ℚ) ≠ 0 := by exact_mod_cast hbn.ne'
    field_simp
  have hn : 0 < a.num.natAbs * b.den :=
    Nat.mul_pos (Int.natAbs_pos.2 han.ne') b.den_pos
  have hd : 0 < a.den * b.num.natAbs :=
    Nat.mul_pos a.den_pos (Int.natAbs_pos.2 hbn.ne')
  obtain ⟨r, hr, h1, h2⟩ := roundDouble_pos _ _ hn hd (by rw [hfrac]; exact hlo)
    (by rw [hfrac]; exact hhi)
  rw [hfrac] at h1 h2
  refine ⟨r, ?_, h1, h2⟩
  simp only [JSNum.div, if_neg hbn.ne', isNeg_of_pos a ha, isNeg_of_pos b hb, bne_self_eq_false]
  exact hr

theorem mul_fin_pos (a b : ℚ) (ha : 0 < a) (hb : 0 < b)
    (hlo : (2 : ℚ) ^ (-1022 : Int) ≤ a * b) (hhi : a * b < (2 : ℚ) ^ (1023 : Int)) :
    ∃ r : ℚ, JSNum.mul (.fin a) (.fin b) = .fin r ∧
      a * b * (1 - unitRoundoff) ≤ r ∧ r ≤ a * b * (1 + unitRoundoff) := by
  have han : 0 < a.num := Rat.num_pos.2 ha
  have hbn : 0 < b.num := Rat.num_pos.2 hb
  have hfrac : ((a.num.natAbs * b.num.natAbs : Nat) : ℚ) / ((a.den * b.den : Nat) : ℚ) = a * b := by
    push_cast
    rw [natAbs_num_cast a ha, natAbs_num_cast b hb]
    conv_rhs => rw [← Rat.num_div_den a, ← Rat.num_div_den b]
    have h1 : (a.den : ℚ) ≠ 0 := by exact_mod_cast a.den_nz
    have h2 : (b.den : ℚ) ≠ 0 := by exact_mod_cast b.den_nz
    field_simp
  have hn : 0 < a.num.natAbs * b.num.natAbs :=
    Nat.mul_pos (Int.natAbs_pos.2 han.ne') (Int.natAbs_pos.2 hbn.ne')
  have hd : 0 < a.den * b.den := Nat.mul_pos a.den_pos b.den_pos
  obtain ⟨r, hr, h1, h2⟩ := roundDouble_pos _ _ hn hd (by rw [hfrac]; exact hlo)
    (by rw [hfrac]; exact hhi)
  rw [hfrac] at h1 h2
  refine ⟨r, ?_, h1, h2⟩
  simp only [JSNum.mul, isNeg_of_pos a ha, isNeg_of_pos b hb, bne_self_eq_false]
  exact hr

theorem round_fin (r : ℚ) : JSNum.round (.fin r) = .fin ((⌊r + 1 / 2⌋ : Int) : ℚ) := by
  have h : (⌊r + 1 / 2⌋ : Int) = (2 * r.num + r.den) / (2 * (r.den : Int)) := by
    have h1 : r + 1 / 2 = (((2 * r.num + r.den : Int)) : ℚ) / (((2 * r.den : Nat)) : ℚ) := by
      have hd : (r.den : ℚ) ≠ 0 := by exact_mod_cast r.den_nz
      conv_lhs => rw [← Rat.num_div_den r]
      push_cast
      field_simp
      ring
    rw [h1, Rat.floor_intCast_div_natCast]
    push_cast
    rfl
  simp only [JSNum.round]
  rw [h]

theorem truthy_ofNat (t : Nat) (ht : 0 < t) : truthy (some (JSNum.ofNat t)) = some (JSNum.ofNat t) := by
  have : ((t : ℚ)).num ≠ 0 := by
    rw [Rat.num_natCast]; exact_mod_cast ht.ne'
  simp only [truthy, JSNum.ofNat, if_neg this]

theorem floor_of_near (N w : Nat) (hw : 0 < w) (r : ℚ)
    (h1 : 2 * (w : ℚ) * ((N : ℚ) / (w : ℚ) - r) < 1)
    (h2 : 2 * (w : ℚ) * (r - (N : ℚ) / (w : ℚ)) < 1) :
    (¬ isHalfway N w → ⌊r + 1 / 2⌋ = exactRound N w) ∧
    (isHalfway N w → ⌊r + 1 / 2⌋ = exactRound N w ∨ ⌊r + 1 / 2⌋ = exactRound N w - 1) := by
  have hw' : (0 : ℚ) < (w : ℚ) := by exact_mod_cast hw
  have hw1 : (1 : ℚ) ≤ (w : ℚ) := by exact_mod_cast hw
  have hK1 : ((exactRound N w : Int) : ℚ) ≤ (N : ℚ) / (w : ℚ) + 1 / 2 := Int.floor_le _
  have hK2 : (N : ℚ) / (w : ℚ) + 1 / 2 < ((exactRound N w : Int) : ℚ) + 1 := Int.lt_floor_add_one _
  have hq : 2 * (w : ℚ) * ((N : ℚ) / (w : ℚ) + 1 / 2) = ((2 * N + w : Int) : ℚ) := by
    push_cast; field_simp; ring
  have e1 : 2 * (w : ℚ) * ((N : ℚ) / (w : ℚ)) = 2 * (N : ℚ) := by field_simp; ring
  rw [mul_sub, e1] at h1
  rw [mul_sub, e1] at h2
  have hlt : r + 1 / 2 < ((exactRound N w : Int) : ℚ) + 1 := by
    have hz : ((2 * N + w : Int)) < 2 * w * (exactRound N w + 1) := by
      have : ((2 * N + w : Int) : ℚ) < ((2 * w * (exactRound N w + 1) : Int) : ℚ) := by
        rw [← hq]; push_cast
        exact mul_lt_mul_of_pos_left hK2 (by positivity)
      exact_mod_cast this
    have hz' : ((2 * N + w : Int)) + 1 ≤ 2 * w * (exactRound N w + 1) := hz
    have hz'' : (2 * (N : ℚ) + w) + 1 ≤ 2 * w * (((exactRound N w : Int) : ℚ) + 1) := by
      exact_mod_cast hz'
    have : 2 * (w : ℚ) * (r + 1 / 2) < 2 * w * (((exactRound N w : Int) : ℚ) + 1) := by
      have : 2 * (w : ℚ) * (r + 1 / 2) = 2 * w * r + w := by ring
      linarith
    exact lt_of_mul_lt_mul_left this (by positivity)
  constructor
  · intro hne
    have hz : 2 * w * exactRound N w < ((2 * N + w : Int)) := by
      have : ((2 * w * exactRound N w : Int) : ℚ) < ((2 * N + w : Int) : ℚ) := by
        rw [← hq]; push_cast
        exact mul_lt_mul_of_pos_left (lt_of_le_of_ne hK1 hne) (by positivity)
      exact_mod_cast this
    have hz' : 2 * w * exactRound N w + 1 ≤ ((2 * N + w : Int)) := hz
    have hz'' : 2 * (w : ℚ) * ((exactRound N w : Int) : ℚ) + 1 ≤ 2 * (N : ℚ) + w := by
      exact_mod_cast hz'
    have hge : ((exactRound N w : Int) : ℚ) ≤ r + 1 / 2 := by
      have : 2 * (w : ℚ) * ((exactRound N w : Int) : ℚ) ≤ 2 * w * (r + 1 / 2) := by
        have : 2 * (w : ℚ) * (r + 1 / 2) = 2 * w * r + w := by ring
        linarith
      exact le_of_mul_le_mul_left this (by positivity)
    exact Int.floor_eq_iff.2 ⟨hge, hlt⟩
  · intro heq
    by_cases hc : ((exactRound N w : Int) : ℚ) ≤ r + 1 / 2
    · exact Or.inl (Int.floor_eq_iff.2 ⟨hc, hlt⟩)
    · right
      refine Int.floor_eq_iff.2 ⟨?_, ?_⟩
      · push_cast
        have : 2 * (w : ℚ) * (((exactRound N w : Int) : ℚ) - 1) ≤ 2 * w * (r + 1 / 2) := by
          have h3 : 2 * (w : ℚ) * (r + 1 / 2) = 2 * w * r + w := by ring
          have h4 : 2 * (w : ℚ) * ((exactRound N w : Int) : ℚ) = 2 * (N : ℚ) + w := by
            rw [heq, hq]; push_cast; ring
          rw [mul_sub, h4, h3]
          linarith
        exact le_of_mul_le_mul_left this (by positivity)
      · push_cast
        linarith [not_le.1 hc]

theorem mul_div_bounds (w h t : Nat) (hw : 0 < w) (hh : 0 < h) (ht : 0 < t)
    (hwb : w < 2 ^ 53) (hhb : h < 2 ^ 53) (htb : t < 2 ^ 53) :
    ∃ r : ℚ, JSNum.mul (.ofNat t) (JSNum.div (.ofNat h) (.ofNat w)) = .fin r ∧
      ((t : ℚ) * (h : ℚ) / (w : ℚ)) * (1 - unitRoundoff) ^ 2 ≤ r ∧
      r ≤ ((t : ℚ) * (h : ℚ) / (w : ℚ)) * (1 + unitRoundoff) ^ 2 := by
  have hw' : (0 : ℚ) < (w : ℚ) := by exact_mod_cast hw
  have hh' : (0 : ℚ) < (h : ℚ) := by exact_mod_cast hh
  have ht' : (0 : ℚ) < (t : ℚ) := by exact_mod_cast ht
  have hw1 : (1 : ℚ) ≤ (w : ℚ) := by exact_mod_cast hw
  have hh1 : (1 : ℚ) ≤ (h : ℚ) := by exact_mod_cast hh
  have ht1 : (1 : ℚ) ≤ (t : ℚ) := by exact_mod_cast ht
  have hwb' : (w : ℚ) ≤ 2 ^ 53 := by exact_mod_cast hwb.le
  have hhb' : (h : ℚ) ≤ 2 ^ 53 := by exact_mod_cast hhb.le
  have htb' : (t : ℚ) ≤ 2 ^ 53 := by exact_mod_cast htb.le
  have hu0 : (0 : ℚ) < unitRoundoff := by unfold unitRoundoff; positivity
  have hu1 : unitRoundoff ≤ 1 / 2 := by unfold unitRoundoff; norm_num
  have hsmall : (2 : ℚ) ^ (-1022 : Int) ≤ 1 / 2 ^ 54 := by
    have : (1 : ℚ) / 2 ^ 54 = (2 : ℚ) ^ (-54 : Int) := by
      rw [zpow_neg, show (54 : Int) = ((54 : Nat) : Int) by rfl, zpow_natCast, one_div]
    rw [this]
    exact zpow_le_zpow_right₀ (by norm_num) (by norm_num)
  have hbig : (2 : ℚ) ^ 107 ≤ (2 : ℚ) ^ (1023 : Int) := by
    have : (2 : ℚ) ^ 107 = (2 : ℚ) ^ (107 : Int) := by
      rw [show (107 : Int) = ((107 : Nat) : Int) by rfl, zpow_natCast]
    rw [this]
    exact zpow_le_zpow_right₀ (by norm_num) (by norm_num)
  -- the quotient
  have hq0 : (0 : ℚ) < (h : ℚ) / (w : ℚ) := div_pos hh' hw'
  have hqlo : (1 : ℚ) / 2 ^ 53 ≤ (h : ℚ) / (w : ℚ) := by
    rw [le_div_iff₀ hw']
    have : (1 : ℚ) / 2 ^ 53 * (w : ℚ) ≤ 1 := by
      rw [div_mul_eq_mul_div, one_mul, div_le_one (by positivity)]
      exact hwb'
    linarith
  have hqhi : (h : ℚ) / (w : ℚ) ≤ 2 ^ 53 := by
    rw [div_le_iff₀ hw']
    nlinarith
  obtain ⟨r1, hr1, hr1lo, hr1hi⟩ := div_fin_pos (h : ℚ) (w : ℚ) hh' hw'
    (le_trans hsmall (le_trans (by norm_num) hqlo))
    (lt_of_le_of_lt hqhi (lt_of_lt_of_le (by norm_num) hbig))
  have hr1pos : 0 < r1 := by
    have : 0 < (h : ℚ) / (w : ℚ) * (1 - unitRoundoff) := mul_pos hq0 (by linarith)
    linarith
  have hr1lo' : (1 : ℚ) / 2 ^ 54 ≤ r1 := by
    have : (1 : ℚ) / 2 ^ 53 * (1 / 2) ≤ (h : ℚ) / (w : ℚ) * (1 - unitRoundoff) :=
      mul_le_mul hqlo (by linarith) (by norm_num) hq0.le
    have e : (1 : ℚ) / 2 ^ 53 * (1 / 2) = 1 / 2 ^ 54 := by norm_num
    linarith
  have hr1hi' : r1 ≤ 2 ^ 54 := by
    have : (h : ℚ) / (w : ℚ) * (1 + unitRoundoff) ≤ 2 ^ 53 * 2 :=
      mul_le_mul hqhi (by linarith) (by linarith) (by positivity)
    have e : (2 : ℚ) ^ 53 * 2 = 2 ^ 54 := by norm_num
    linarith
  have hplo : (1 : ℚ) / 2 ^ 54 ≤ (t : ℚ) * r1 := by
    have := mul_le_mul ht1 hr1lo' (by positivity) ht'.le
    linarith
  have hphi : (t : ℚ) * r1 ≤ 2 ^ 107 := by
    have := mul_le_mul htb' hr1hi' hr1pos.le (by positivity)
    have e : (2 : ℚ) ^ 53 * 2 ^ 54 = 2 ^ 107 := by norm_num
    linarith
  obtain ⟨r2, hr2, hr2lo, hr2hi⟩ := mul_fin_pos (t : ℚ) r1 ht' hr1pos
    (le_trans hsmall hplo)
    (lt_of_le_of_lt hphi (lt_of_lt_of_le (by norm_num) (zpow_le_zpow_right₀ (by norm_num)
      (show (108 : Int) ≤ 1023 by norm_num))))
  refine ⟨r2, ?_, ?_, ?_⟩
  · simp only [JSNum.ofNat] at hr1 hr2 ⊢
    rw [hr1, hr2]
  · have h1 : (t : ℚ) * ((h : ℚ) / (w : ℚ) * (1 - unitRoundoff)) ≤ t * r1 :=
      mul_le_mul_of_nonneg_left hr1lo ht'.le
    have h2 : (t : ℚ) * ((h : ℚ) / (w : ℚ) * (1 - unitRoundoff)) * (1 - unitRoundoff)
        ≤ t * r1 * (1 - unitRoundoff) :=
      mul_le_mul_of_nonneg_right h1 (by linarith)
    have e : (t : ℚ) * (h : ℚ) / (w : ℚ) * (1 - unitRoundoff) ^ 2
        = (t : ℚ) * ((h : ℚ) / (w : ℚ) * (1 - unitRoundoff)) * (1 - unitRoundoff) := by ring
    rw [e]; linarith
  · have h1 : (t : ℚ) * r1 ≤ t * ((h : ℚ) / (w : ℚ) * (1 + unitRoundoff)) :=
      mul_le_mul_of_nonneg_left hr1hi ht'.le
    have h2 : (t : ℚ) * r1 * (1 + unitRoundoff)
        ≤ t * ((h : ℚ) / (w : ℚ) * (1 + unitRoundoff)) * (1 + unitRoundoff) :=
      mul_le_mul_of_nonneg_right h1 (by linarith)
    have e : (t : ℚ) * (h : ℚ) / (w : ℚ) * (1 + unitRoundoff) ^ 2
        = (t : ℚ) * ((h : ℚ) / (w : ℚ) * (1 + unitRoundoff)) * (1 + unitRoundoff) := by ring
    rw [e]; linarith

theorem scaled_round (w h t : Nat) (hw : 0 < w) (hh : 0 < h) (ht : 0 < t)
    (hwb : w < 2 ^ 53) (hb : t * h < 2 ^ 51) :
    (¬ isHalfway (t * h) w →
      JSNum.round (JSNum.mul (.ofNat t) (JSNum.div (.ofNat h) (.ofNat w)))
        = .fin ((exactRound (t * h) w : Int) : ℚ)) ∧
    (isHalfway (t * h) w →
      JSNum.round (JSNum.mul (.ofNat t) (JSNum.div (.ofNat h) (.ofNat w)))
        = .fin ((exactRound (t * h) w : Int) : ℚ) ∨
      JSNum.round (JSNum.mul (.ofNat t) (JSNum.div (.ofNat h) (.ofNat w)))
        = .fin ((exactRound (t * h) w - 1 : Int) : ℚ)) := by
  have hw' : (0 : ℚ) < (w : ℚ) := by exact_mod_cast hw
  have htb : t < 2 ^ 53 := by
    have : t ≤ t * h := Nat.le_mul_of_pos_right t hh
    omega
  have hhb : h < 2 ^ 53 := by
    have : h ≤ t * h := Nat.le_mul_of_pos_left h ht
    omega
  obtain ⟨r, hr, hlo, hhi⟩ := mul_div_bounds w h t hw hh ht hwb hhb htb
  have hN : ((t * h : Nat) : ℚ) ≤ 2 ^ 51 - 1 := by
    have : t * h + 1 ≤ 2 ^ 51 := hb
    have : ((t * h + 1 : Nat) : ℚ) ≤ ((2 ^ 51 : Nat) : ℚ) := Nat.cast_le.2 this
    push_cast at this ⊢
    linarith
  have hN0 : (0 : ℚ) ≤ ((t * h : Nat) : ℚ) := Nat.cast_nonneg _
  have hcast : ((t * h : Nat) : ℚ) = (t : ℚ) * (h : ℚ) := by push_cast; ring
  have e1 : 2 * (w : ℚ) * (((t * h : Nat) : ℚ) / (w : ℚ)) = 2 * ((t * h : Nat) : ℚ) := by
    field_simp; ring
  have hlo' : 2 * ((t * h : Nat) : ℚ) * (1 - unitRoundoff) ^ 2 ≤ 2 * (w : ℚ) * r := by
    have := mul_le_mul_of_nonneg_left hlo (show (0 : ℚ) ≤ 2 * (w : ℚ) by positivity)
    rw [← hcast] at this
    calc 2 * ((t * h : Nat) : ℚ) * (1 - unitRoundoff) ^ 2
        = 2 * (w : ℚ) * (((t * h : Nat) : ℚ) / (w : ℚ) * (1 - unitRoundoff) ^ 2) := by
          rw [← mul_assoc, e1]
      _ ≤ 2 * (w : ℚ) * r := this
  have hhi' : 2 * (w : ℚ) * r ≤ 2 * ((t * h : Nat) : ℚ) * (1 + unitRoundoff) ^ 2 := by
    have := mul_le_mul_of_nonneg_left hhi (show (0 : ℚ) ≤ 2 * (w : ℚ) by positivity)
    rw [← hcast] at this
    calc 2 * (w : ℚ) * r
        ≤ 2 * (w : ℚ) * (((t * h : Nat) : ℚ) / (w : ℚ) * (1 + unitRoundoff) ^ 2) := this
      _ = 2 * ((t * h : Nat) : ℚ) * (1 + unitRoundoff) ^ 2 := by
          rw [← mul_assoc, e1]
  have hc1 : (1 : ℚ) - (1 - unitRoundoff) ^ 2 ≤ (1 + unitRoundoff) ^ 2 - 1 := by
    unfold unitRoundoff; norm_num
  have hc0 : (0 : ℚ) ≤ (1 + unitRoundoff) ^ 2 - 1 := by
    unfold unitRoundoff; norm_num
  have hc2 : 2 * ((2 : ℚ) ^ 51 - 1) * ((1 + unitRoundoff) ^ 2 - 1) < 1 := by
    unfold unitRoundoff; norm_num
  have hmain : 2 * ((t * h : Nat) : ℚ) * ((1 + unitRoundoff) ^ 2 - 1) < 1 := by
    have : 2 * ((t * h : Nat) : ℚ) * ((1 + unitRoundoff) ^ 2 - 1)
        ≤ 2 * ((2 : ℚ) ^ 51 - 1) * ((1 + unitRoundoff) ^ 2 - 1) :=
      mul_le_mul_of_nonneg_right (by linarith) hc0
    linarith
  have hmain' : 2 * ((t * h : Nat) : ℚ) * (1 - (1 - unitRoundoff) ^ 2) < 1 := by
    have : 2 * ((t * h : Nat) : ℚ) * (1 - (1 - unitRoundoff) ^ 2)
        ≤ 2 * ((t * h : Nat) : ℚ) * ((1 + unitRoundoff) ^ 2 - 1) :=
      mul_le_mul_of_nonneg_left hc1 (by linarith)
    linarith
  have h1 : 2 * (w : ℚ) * (((t * h : Nat) : ℚ) / (w : ℚ) - r) < 1 := by
    rw [mul_sub, e1]
    have : 2 * ((t * h : Nat) : ℚ) * (1 - (1 - unitRoundoff) ^ 2)
        = 2 * ((t * h : Nat) : ℚ) - 2 * ((t * h : Nat) : ℚ) * (1 - unitRoundoff) ^ 2 := by ring
    linarith
  have h2 : 2 * (w : ℚ) * (r - ((t * h : Nat) : ℚ) / (w : ℚ)) < 1 := by
    rw [mul_sub, e1]
    have : 2 * ((t * h : Nat) : ℚ) * ((1 + unitRoundoff) ^ 2 - 1)
        = 2 * ((t * h : Nat) : ℚ) * (1 + unitRoundoff) ^ 2 - 2 * ((t * h : Nat) : ℚ) := by ring
    linarith
  obtain ⟨f1, f2⟩ := floor_of_near (t * h) w hw r h1 h2
  rw [hr, round_fin]
  constructor
  · intro hne
    rw [f1 hne]
  · intro he
    rcases f2 he with h | h
    · left; rw [h]
    · right; rw [h]

theorem scaled_round_pos (w h t : Nat) (hw : 0 < w) (hh : 0 < h) (ht : 0 < t)
    (hwb : w < 2 ^ 53) (hhb : h < 2 ^ 53) (htb : t < 2 ^ 53) (hge : w ≤ t * h) :
    ∃ z : Int, JSNum.round (JSNum.mul (.ofNat t) (JSNum.div (.ofNat h) (.ofNat w)))
        = .fin (z : ℚ) ∧ 1 ≤ z := by
  have hw' : (0 : ℚ) < (w : ℚ) := by exact_mod_cast hw
  obtain ⟨r, hr, hlo, -⟩ := mul_div_bounds w h t hw hh ht hwb hhb htb
  have hq : (1 : ℚ) ≤ (t : ℚ) * (h : ℚ) / (w : ℚ) := by
    rw [le_div_iff₀ hw', one_mul]
    exact_mod_cast hge
  have hc : (1 : ℚ) / 2 ≤ (1 - unitRoundoff) ^ 2 := by unfold unitRoundoff; norm_num
  have hr1 : (1 : ℚ) / 2 ≤ r := by
    have : (1 : ℚ) * (1 - unitRoundoff) ^ 2 ≤ (t : ℚ) * (h : ℚ) / (w : ℚ) * (1 - unitRoundoff) ^ 2 :=
      mul_le_mul_of_nonneg_right hq (by positivity)
    linarith
  refine ⟨⌊r + 1 / 2⌋, ?_, ?_⟩
  · rw [hr, round_fin]
  · rw [Int.le_floor]
    push_cast
    linarith

theorem roundHalfEven_ge (n d M : Nat) (hd : 0 < d) (hM : M % 2 = 0)
    (h : 2 * (M * d) ≤ 2 * n + d) : M ≤ roundHalfEven n d := by
  have h1 := Nat.div_add_mod n d
  have h2 := Nat.mod_lt n hd
  have hle : M ≤ n / d + 1 := by
    by_contra hc
    have hc' : n / d + 2 ≤ M := by omega
    have h3 : (n / d + 2) * d ≤ M * d := Nat.mul_le_mul_right d hc'
    have h4 : (n / d + 2) * d = d * (n / d) + 2 * d := by ring
    omega
  unfold roundHalfEven
  by_cases hMf : M ≤ n / d
  · split
    · exact hMf
    · split
      · omega
      · split <;> omega
  · have hMeq : M = n / d + 1 := by omega
    have h5 : M * d = d * (n / d) + d := by rw [hMeq]; ring
    have h6 : d ≤ 2 * (n % d) := by omega
    rw [if_neg (by omega)]
    split
    · omega
    · rw [if_neg (by omega)]
      omega

theorem roundDouble_pos_form (n d : Nat) (hn : 0 < n) (hd : 0 < d)
    (hlo : (2 : ℚ) ^ (-1022 : Int) ≤ (n : ℚ) / (d : ℚ))
    (hhi : (n : ℚ) / (d : ℚ) < (2 : ℚ) ^ (1023 : Int)) :
    roundDouble false n d
      = .fin ((significand n d : ℚ) * (2 : ℚ) ^ (binade n d - 52)) ∧
    ulpExp n d = binade n d - 52 := by
  obtain ⟨-, hb2⟩ := binade_spec n d hn hd
  have he : (-1022 : Int) ≤ binade n d := by
    have : (2 : ℚ) ^ (-1022 : Int) < (2 : ℚ) ^ (binade n d + 1) := lt_of_le_of_lt hlo hb2
    have := (zpow_lt_zpow_iff_right₀ (by norm_num : (1 : ℚ) < 2)).1 this
    omega
  have hk : ulpExp n d = binade n d - 52 := by
    unfold ulpExp; rw [max_eq_left he]
  refine ⟨?_, hk⟩
  obtain ⟨r, hr, -, -⟩ := roundDouble_pos n d hn hd hlo hhi
  rw [← hk, ← dyadic_spec]
  unfold roundDouble at hr ⊢
  rw [if_neg hn.ne'] at hr ⊢
  split
  · rename_i hov
    rw [if_pos hov] at hr
    cases hr
  · rfl

theorem roundDouble_ge_half (n d : Nat) (hn : 0 < n) (hd : 0 < d)
    (hlo : (1 : ℚ) / 2 - 1 / 2 ^ 55 ≤ (n : ℚ) / (d : ℚ))
    (hhi : (n : ℚ) / (d : ℚ) < (2 : ℚ) ^ (1023 : Int)) :
    ∃ r : ℚ, roundDouble false n d = .fin r ∧ 1 / 2 ≤ r := by
  have h2 : (0 : ℚ) < 2 := by norm_num
  have h2' : (2 : ℚ) ≠ 0 := by norm_num
  have h12 : (1 : ℚ) < 2 := by norm_num
  have hquarter : (2 : ℚ) ^ (-2 : Int) < (n : ℚ) / (d : ℚ) := by
    have : (2 : ℚ) ^ (-2 : Int) < 1 / 2 - 1 / 2 ^ 55 := by
      rw [zpow_neg, show (2 : Int) = ((2 : Nat) : Int) by rfl, zpow_natCast]
      norm_num
    linarith
  have hlo' : (2 : ℚ) ^ (-1022 : Int) ≤ (n : ℚ) / (d : ℚ) :=
    le_trans (zpow_le_zpow_right₀ h12.le (by norm_num)) hquarter.le
  obtain ⟨hform, hk⟩ := roundDouble_pos_form n d hn hd hlo' hhi
  obtain ⟨hb1, hb2⟩ := binade_spec n d hn hd
  have hs := scale_spec n d (ulpExp n d) hd
  have hsp := scale_snd_pos n d (ulpExp n d) hd
  have hsp' : (0 : ℚ) < ((scale n d (ulpExp n d)).2 : ℚ) := by exact_mod_cast hsp
  have hpk : (0 : ℚ) < (2 : ℚ) ^ (binade n d - 52) := zpow_pos h2 _
  have ha : ((scale n d (ulpExp n d)).1 : ℚ)
      = (n : ℚ) / (d : ℚ) / (2 : ℚ) ^ (binade n d - 52) * ((scale n d (ulpExp n d)).2 : ℚ) := by
    rw [← hk, ← hs]; field_simp
  have he2 : (-2 : Int) ≤ binade n d := by
    have : (2 : ℚ) ^ (-2 : Int) < (2 : ℚ) ^ (binade n d + 1) := lt_trans hquarter hb2
    have := (zpow_lt_zpow_iff_right₀ h12).1 this
    omega
  refine ⟨_, hform, ?_⟩
  by_cases hcase : (-1 : Int) ≤ binade n d
  · -- the quotient is at least one half: the significand has 53 bits
    have hM : 2 ^ 52 ≤ significand n d := by
      unfold significand
      apply roundHalfEven_ge _ _ _ hsp (by norm_num)
      have hq : ((2 : ℚ) ^ 52) ≤ (n : ℚ) / (d : ℚ) / (2 : ℚ) ^ (binade n d - 52) := by
        rw [le_div_iff₀ hpk]
        have : ((2 : ℚ) ^ 52) * (2 : ℚ) ^ (binade n d - 52) = (2 : ℚ) ^ binade n d := by
          rw [show ((2 : ℚ) ^ 52) = (2 : ℚ) ^ (52 : Int) by
            rw [show (52 : Int) = ((52 : Nat) : Int) by rfl, zpow_natCast],
            ← zpow_add₀ h2']
          congr 1; ring
        rw [this]; exact hb1
      have hq' : ((2 : ℚ) ^ 52) * ((scale n d (ulpExp n d)).2 : ℚ)
          ≤ ((scale n d (ulpExp n d)).1 : ℚ) := by
        rw [ha]; exact mul_le_mul_of_nonneg_right hq hsp'.le
      have hq'' : 2 ^ 52 * (scale n d (ulpExp n d)).2 ≤ (scale n d (ulpExp n d)).1 := by
        exact_mod_cast hq'
      omega
    have hM' : ((2 : ℚ) ^ 52) ≤ (significand n d : ℚ) := by exact_mod_cast hM
    have hpow : (1 : ℚ) / 2 ≤ ((2 : ℚ) ^ 52) * (2 : ℚ) ^ (binade n d - 52) := by
      have : ((2 : ℚ) ^ 52) * (2 : ℚ) ^ (binade n d - 52) = (2 : ℚ) ^ binade n d := by
        rw [show ((2 : ℚ) ^ 52) = (2 : ℚ) ^ (52 : Int) by
          rw [show (52 : Int) = ((52 : Nat) : Int) by rfl, zpow_natCast],
          ← zpow_add₀ h2']
        congr 1; ring
      rw [this]
      have h3 : (2 : ℚ) ^ (-1 : Int) ≤ (2 : ℚ) ^ binade n d := zpow_le_zpow_right₀ h12.le hcase
      have h4 : (2 : ℚ) ^ (-1 : Int) = 1 / 2 := by
        rw [zpow_neg, zpow_one, one_div]
      rw [h4] at h3
      exact h3
    calc (1 : ℚ) / 2 ≤ ((2 : ℚ) ^ 52) * (2 : ℚ) ^ (binade n d - 52) := hpow
      _ ≤ (significand n d : ℚ) * (2 : ℚ) ^ (binade n d - 52) :=
          mul_le_mul_of_nonneg_right hM' hpk.le
  · -- the quotient is just below one half: it rounds up to one half
    have hbin : binade n d = -2 := by omega
    rw [hbin] at ha hpk ⊢
    have hp54 : (2 : ℚ) ^ ((-2 : Int) - 52) = 1 / 2 ^ 54 := by
      rw [show ((-2 : Int) - 52) = -((54 : Nat) : Int) by norm_num, zpow_neg, zpow_natCast,
        one_div]
    rw [hp54] at ha ⊢
    have hM : 2 ^ 53 ≤ significand n d := by
      unfold significand
      apply roundHalfEven_ge _ _ _ hsp (by norm_num)
      have hq' : 2 * (((2 : ℚ) ^ 53) * ((scale n d (ulpExp n d)).2 : ℚ))
          ≤ 2 * ((scale n d (ulpExp n d)).1 : ℚ) + ((scale n d (ulpExp n d)).2 : ℚ) := by
        rw [ha]
        have hx : ((2 : ℚ) ^ 53 - 1 / 2) ≤ (n : ℚ) / (d : ℚ) / (1 / 2 ^ 54) := by
          rw [le_div_iff₀ (by positivity)]
          have : ((2 : ℚ) ^ 53 - 1 / 2) * (1 / 2 ^ 54) = 1 / 2 - 1 / 2 ^ 55 := by norm_num
          rw [this]; exact hlo
        have := mul_le_mul_of_nonneg_right hx hsp'.le
        linarith
      exact_mod_cast hq'
    have hM' : ((2 : ℚ) ^ 53) ≤ (significand n d : ℚ) := by exact_mod_cast hM
    calc (1 : ℚ) / 2 = ((2 : ℚ) ^ 53) * (1 / 2 ^ 54) := by norm_num
      _ ≤ (significand n d : ℚ) * (1 / 2 ^ 54) :=
          mul_le_mul_of_nonneg_right hM' (by positivity)

theorem mul_fin_ge_half (a b : ℚ) (ha : 0 < a) (hb : 0 < b)
    (hlo : (1 : ℚ) / 2 - 1 / 2 ^ 55 ≤ a * b) (hhi : a * b < (2 : ℚ) ^ (1023 : Int)) :
    ∃ r : ℚ, JSNum.mul (.fin a) (.fin b) = .fin r ∧ 1 / 2 ≤ r := by
  have han : 0 < a.num := Rat.num_pos.2 ha
  have hbn : 0 < b.num := Rat.num_pos.2 hb
  have hfrac : ((a.num.natAbs * b.num.natAbs : Nat) : ℚ) / ((a.den * b.den : Nat) : ℚ) = a * b := by
    push_cast
    rw [natAbs_num_cast a ha, natAbs_num_cast b hb]
    conv_rhs => rw [← Rat.num_div_den a, ← Rat.num_div_den b]
    have h1 : (a.den : ℚ) ≠ 0 := by exact_mod_cast a.den_nz
    have h2 : (b.den : ℚ) ≠ 0 := by exact_mod_cast b.den_nz
    field_simp
  have hn : 0 < a.num.natAbs * b.num.natAbs :=
    Nat.mul_pos (Int.natAbs_pos.2 han.ne') (Int.natAbs_pos.2 hbn.ne')
  have hd : 0 < a.den * b.den := Nat.mul_pos a.den_pos b.den_pos
  obtain ⟨r, hr, h1⟩ := roundDouble_ge_half _ _ hn hd (by rw [hfrac]; exact hlo)
    (by rw [hfrac]; exact hhi)
  refine ⟨r, ?_, h1⟩
  simp only [JSNum.mul, isNeg_of_pos a ha, isNeg_of_pos b hb, bne_self_eq_false]
  exact hr

theorem scaled_round_above_half (w h t : Nat) (hw : 0 < w) (hh : 0 < h) (ht : 0 < t)
    (hwb : w < 2 ^ 53) (hhb : h < 2 ^ 53) (htb : t < 2 ^ 53) (hgt : w < 2 * (t * h)) :
    ∃ z : Int, JSNum.round (JSNum.mul (.ofNat t) (JSNum.div (.ofNat h) (.ofNat w)))
        = .fin (z : ℚ) ∧ 1 ≤ z := by
  have hw' : (0 : ℚ) < (w : ℚ) := by exact_mod_cast hw
  have hh' : (0 : ℚ) < (h : ℚ) := by exact_mod_cast hh
  have ht' : (0 : ℚ) < (t : ℚ) := by exact_mod_cast ht
  have hw1 : (1 : ℚ) ≤ (w : ℚ) := by exact_mod_cast hw
  have hh1 : (1 : ℚ) ≤ (h : ℚ) := by exact_mod_cast hh
  have ht1 : (1 : ℚ) ≤ (t : ℚ) := by exact_mod_cast ht
  have hwb' : (w : ℚ) ≤ 2 ^ 53 := by exact_mod_cast hwb.le
  have hhb' : (h : ℚ) ≤ 2 ^ 53 := by exact_mod_cast hhb.le
  have htb' : (t : ℚ) ≤ 2 ^ 53 := by exact_mod_cast htb.le
  have hu0 : (0 : ℚ) < unitRoundoff := by unfold unitRoundoff; positivity
  have hu1 : unitRoundoff ≤ 1 / 2 := by unfold unitRoundoff; norm_num
  have hsmall : (2 : ℚ) ^ (-1022 : Int) ≤ 1 / 2 ^ 54 := by
    have : (1 : ℚ) / 2 ^ 54 = (2 : ℚ) ^ (-54 : Int) := by
      rw [zpow_neg, show (54 : Int) = ((54 : Nat) : Int) by rfl, zpow_natCast, one_div]
    rw [this]
    exact zpow_le_zpow_right₀ (by norm_num) (by norm_num)
  have hbig : (2 : ℚ) ^ 107 ≤ (2 : ℚ) ^ (1023 : Int) := by
    have : (2 : ℚ) ^ 107 = (2 : ℚ) ^ (107 : Int) := by
      rw [show (107 : Int) = ((107 : Nat) : Int) by rfl, zpow_natCast]
    rw [this]
    exact zpow_le_zpow_right₀ (by norm_num) (by norm_num)
  have hq0 : (0 : ℚ) < (h : ℚ) / (w : ℚ) := div_pos hh' hw'
  have hqlo : (1 : ℚ) / 2 ^ 53 ≤ (h : ℚ) / (w : ℚ) := by
    rw [le_div_iff₀ hw']
    have : (1 : ℚ) / 2 ^ 53 * (w : ℚ) ≤ 1 := by
      rw [div_mul_eq_mul_div, one_mul, div_le_one (by positivity)]
      exact hwb'
    linarith
  have hqhi : (h : ℚ) / (w : ℚ) ≤ 2 ^ 53 := by
    rw [div_le_iff₀ hw']
    nlinarith
  obtain ⟨r1, hr1, hr1lo, hr1hi⟩ := div_fin_pos (h : ℚ) (w : ℚ) hh' hw'
    (le_trans hsmall (le_trans (by norm_num) hqlo))
    (lt_of_le_of_lt hqhi (lt_of_lt_of_le (by norm_num) hbig))
  have hr1pos : 0 < r1 := by
    have : 0 < (h : ℚ) / (w : ℚ) * (1 - unitRoundoff) := mul_pos hq0 (by linarith)
    linarith
  have hr1hi' : r1 ≤ 2 ^ 54 := by
    have : (h : ℚ) / (w : ℚ) * (1 + unitRoundoff) ≤ 2 ^ 53 * 2 :=
      mul_le_mul hqhi (by linarith) (by linarith) (by positivity)
    have e : (2 : ℚ) ^ 53 * 2 = 2 ^ 54 := by norm_num
    linarith
  have hphi : (t : ℚ) * r1 ≤ 2 ^ 107 := by
    have := mul_le_mul htb' hr1hi' hr1pos.le (by positivity)
    have e : (2 : ℚ) ^ 53 * 2 ^ 54 = 2 ^ 107 := by norm_num
    linarith
  -- the exact quotient is above one half by at least `1 / (2 * w)`
  have hgt' : (w : ℚ) + 1 ≤ 2 * ((t : ℚ) * (h : ℚ)) := by
    have : w + 1 ≤ 2 * (t * h) := hgt
    exact_mod_cast this
  have hquot : (1 : ℚ) / 2 * (1 + unitRoundoff) ≤ (t : ℚ) * ((h : ℚ) / (w : ℚ)) := by
    have e : (t : ℚ) * ((h : ℚ) / (w : ℚ)) = (t : ℚ) * (h : ℚ) / (w : ℚ) := by ring
    rw [e, le_div_iff₀ hw']
    have hu : unitRoundoff * (w : ℚ) ≤ 1 := by
      unfold unitRoundoff
      rw [div_mul_eq_mul_div, one_mul, div_le_one (by positivity)]
      exact hwb'
    nlinarith
  have hplo : (1 : ℚ) / 2 - 1 / 2 ^ 55 ≤ (t : ℚ) * r1 := by
    have h1 : (t : ℚ) * ((h : ℚ) / (w : ℚ) * (1 - unitRoundoff)) ≤ t * r1 :=
      mul_le_mul_of_nonneg_left hr1lo ht'.le
    have h2 : (1 : ℚ) / 2 * (1 + unitRoundoff) * (1 - unitRoundoff)
        ≤ (t : ℚ) * ((h : ℚ) / (w : ℚ)) * (1 - unitRoundoff) :=
      mul_le_mul_of_nonneg_right hquot (by linarith)
    have h3 : (1 : ℚ) / 2 - 1 / 2 ^ 55 ≤ 1 / 2 * (1 + unitRoundoff) * (1 - unitRoundoff) := by
      unfold unitRoundoff; norm_num
    have e : (t : ℚ) * ((h : ℚ) / (w : ℚ) * (1 - unitRoundoff))
        = (t : ℚ) * ((h : ℚ) / (w : ℚ)) * (1 - unitRoundoff) := by ring
    linarith
  obtain ⟨r2, hr2, hr2lo⟩ := mul_fin_ge_half (t : ℚ) r1 ht' hr1pos hplo
    (lt_of_le_of_lt hphi (lt_of_lt_of_le (by norm_num) (zpow_le_zpow_right₀ (by norm_num)
      (show (108 : Int) ≤ 1023 by norm_num))))
  refine ⟨⌊r2 + 1 / 2⌋, ?_, ?_⟩
  · simp only [JSNum.ofNat] at hr1 hr2 ⊢
    rw [hr1, hr2, round_fin]
  · rw [Int.le_floor]
    push_cast
    linarith

/-! ## File names -/

theorem afterLastDot_eq_none (l : List Char) : afterLastDot l = none ↔ '.' ∉ l := by
  induction l with
  | nil => simp [afterLastDot]
  | cons c rest ih =>
    unfold afterLastDot
    cases h : afterLastDot rest with
    | none =>
      have hr : '.' ∉ rest := ih.1 h
      by_cases hc : c = '.'
      · simp [hc]
      · simp [hc, hr, Ne.symm hc]
    | some ext =>
      have hr : ¬ ('.' ∉ rest) := fun hn => by rw [ih.2 hn] at h; cases h
      simp only [reduceCtorEq, false_iff, List.mem_cons, not_or, not_and, not_not]
      intro _
      exact not_not.1 hr

theorem all_isExtChar_of_no_dot (l : List Char) (h : '.' ∉ l) :
    l.all isExtChar = !l.contains '/' := by
  induction l with
  | nil => rfl
  | cons c rest ih =>
    have hc : c ≠ '.' := fun e => h (e ▸ List.mem_cons_self _ _)
    have hr : '.' ∉ rest := fun e => h (List.mem_cons_of_mem _ e)
    have ih' := ih hr
    simp only [List.all_cons, ih', isExtChar, List.contains_cons, Bool.not_or]
    by_cases hs : c = '/'
    · subst hs; simp
    · have h1 : (c != '/') = true := by simp [hs]
      have h2 : (c != '.') = true := by simp [hc]
      have h3 : ('/' == c) = false := by simp [Ne.symm hs]
      rw [h1, h2, h3]
      simp

theorem stripExtension_of_no_dot (l : List Char) (h : '.' ∉ l) : stripExtension l = l := by
  induction l with
  | nil => rfl
  | cons c rest ih =>
    have hc : c ≠ '.' := fun e => h (e ▸ List.mem_cons_self _ _)
    have hr : '.' ∉ rest := fun e => h (List.mem_cons_of_mem _ e)
    simp [stripExtension, matchesExt, hc, ih hr]

theorem dropFromLastDot_of_no_dot (l : List Char) (h : '.' ∉ l) : dropFromLastDot l = l := by
  induction l with
  | nil => rfl
  | cons c rest ih =>
    have hc : c ≠ '.' := fun e => h (e ▸ List.mem_cons_self _ _)
    have hr : '.' ∉ rest := fun e => h (List.mem_cons_of_mem _ e)
    simp [dropFromLastDot, hc, ih hr]

theorem stripExtension_eq (l : List Char) :
    stripExtension l = if hasPlainExtension l then dropFromLastDot l else l := by
  induction l with
  | nil => rfl
  | cons c rest ih =>
    by_cases hr : '.' ∈ rest
    · -- a later dot: the head is kept and the tail decides
      have hne : afterLastDot rest ≠ none := fun e => (afterLastDot_eq_none rest).1 e hr
      obtain ⟨ext, hext⟩ := Option.ne_none_iff_exists'.1 hne
      have hall : rest.all isExtChar = false := by
        rw [List.all_eq_false]
        exact ⟨'.', hr, by simp [isExtChar]⟩
      have hp : hasPlainExtension (c :: rest) = hasPlainExtension rest := by
        simp [hasPlainExtension, afterLastDot, hext]
      have hs : stripExtension (c :: rest) = c :: stripExtension rest := by
        simp [stripExtension, matchesExt, hall]
      have hd : dropFromLastDot (c :: rest) = c :: dropFromLastDot rest := by
        simp [dropFromLastDot, hr]
      rw [hs, hd, hp, ih]
      split <;> rfl
    · have hnone : afterLastDot rest = none := (afterLastDot_eq_none rest).2 hr
      have hrest : stripExtension rest = rest := stripExtension_of_no_dot rest hr
      by_cases hc : c = '.'
      · subst hc
        have hp : hasPlainExtension ('.' :: rest) = (!rest.isEmpty && !rest.contains '/') := by
          simp [hasPlainExtension, afterLastDot, hnone]
        have hm : matchesExt ('.' :: rest) = (!rest.isEmpty && !rest.contains '/') := by
          simp [matchesExt, all_isExtChar_of_no_dot rest hr]
        rw [hp]
        unfold stripExtension
        rw [hm]
        by_cases hb : (!rest.isEmpty && !rest.contains '/') = true
        · rw [if_pos hb, if_pos hb]
          simp [dropFromLastDot, hr]
        · rw [if_neg hb, if_neg hb, hrest]
      · have hp : hasPlainExtension (c :: rest) = false := by
          simp [hasPlainExtension, afterLastDot, hnone, hc]
        have hs : stripExtension (c :: rest) = c :: stripExtension rest := by
          simp [stripExtension, matchesExt, hc]
        rw [hs, hp, hrest]
        simp

/-! ## Registry and batch run: lemmas -/

theorem revokeAll_eq (urls : List Nat) (s : ConverterState) :
    revokeAll urls s =
      { s with live := s.live.filter (fun u => !urls.contains u),
               revoked := s.revoked ++ urls } := by
  induction urls generalizing s with
  | nil => simp [revokeAll]
  | cons u rest ih =>
    have h : revokeAll (u :: rest) s = revokeAll rest (revokeObjectURL s u) := rfl
    rw [h, ih]
    simp only [revokeObjectURL, List.filter_filter, List.append_assoc, List.singleton_append]
    congr 1
    apply List.filter_congr
    intro v _
    simp only [List.contains_cons, Bool.not_or, bne, Bool.and_comm]

theorem clearAllFiles_eq (s : ConverterState) :
    clearAllFiles s =
      { s with uploadedFiles := [], convertedFiles := [],
               live := (s.live.filter (fun u => !(s.uploadedFiles.map (fun f => f.url)).contains u)).filter
                 (fun u => !(s.convertedFiles.map (fun f => f.url)).contains u),
               revoked := s.revoked ++ s.uploadedFiles.map (fun f => f.url)
                 ++ s.convertedFiles.map (fun f => f.url) } := by
  unfold clearAllFiles
  rw [revokeAll_eq, revokeAll_eq]

theorem storeOk_alloc {held held' live rev : List Nat} {n : Nat}
    (h : StoreOk held live rev n) (hp : held'.Perm (n :: held)) :
    StoreOk held' (live ++ [n]) rev (n + 1) := by
  obtain ⟨h1, h2, h3, h4, h5, h6⟩ := h
  have hn : n ∉ live := fun hm => Nat.lt_irrefl _ (h4 n hm)
  refine ⟨?_, ?_, h3, ?_, ?_, ?_⟩
  · exact ((List.perm_append_singleton n live).trans (h1.cons n)).trans hp.symm
  · rw [List.nodup_append]
    refine ⟨h2, List.nodup_singleton n, ?_⟩
    intro a ha hb
    rw [List.mem_singleton] at hb
    exact hn (hb ▸ ha)
  · intro u hu
    rw [List.mem_append, List.mem_singleton] at hu
    rcases hu with hu | hu
    · exact Nat.lt_succ_of_lt (h4 u hu)
    · omega
  · intro u hu
    exact Nat.lt_succ_of_lt (h5 u hu)
  · intro u hu hm
    rw [List.mem_append, List.mem_singleton] at hm
    rcases hm with hm | hm
    · exact h6 u hu hm
    · have := h5 u hu
      omega

theorem storeOk_release {held live rev : List Nat} {n : Nat} (L held' : List Nat)
    (h : StoreOk held live rev n) (hp : held.Perm (L ++ held')) :
    StoreOk held' (live.filter (fun u => !L.contains u)) (rev ++ L) n := by
  obtain ⟨h1, h2, h3, h4, h5, h6⟩ := h
  have hperm : live.Perm (L ++ held') := h1.trans hp
  have hnd : (L ++ held').Nodup := hperm.nodup_iff.1 h2
  obtain ⟨hL, hH, hdisj⟩ := List.nodup_append.1 hnd
  have hLlive : ∀ u ∈ L, u ∈ live := fun u hu =>
    hperm.mem_iff.2 (List.mem_append_left _ hu)
  refine ⟨?_, h2.filter _, ?_, ?_, ?_, ?_⟩
  · have hf := hperm.filter (fun u => !L.contains u)
    rw [List.filter_append] at hf
    have e1 : L.filter (fun u => !L.contains u) = [] := by
      rw [List.filter_eq_nil_iff]
      intro a ha
      simp [ha]
    have e2 : held'.filter (fun u => !L.contains u) = held' := by
      rw [List.filter_eq_self]
      intro a ha
      have : a ∉ L := fun haL => hdisj haL ha
      simp [this]
    rw [e1, e2, List.nil_append] at hf
    exact hf
  · rw [List.nodup_append]
    refine ⟨h3, hL, ?_⟩
    intro a ha hb
    exact h6 a ha (hLlive a hb)
  · intro u hu
    exact h4 u (List.mem_filter.1 hu).1
  · intro u hu
    rw [List.mem_append] at hu
    rcases hu with hu | hu
    · exact h5 u hu
    · exact h4 u (hLlive u hu)
  · intro u hu hm
    rw [List.mem_append] at hu
    have hm' := List.mem_filter.1 hm
    rcases hu with hu | hu
    · exact h6 u hu hm'.1
    · simp [hu] at hm'

theorem inv_init : Inv ConverterState.init := by
  simp [Inv, StoreOk, heldUrls, ConverterState.init]

theorem inv_addFileToList (env : Env) (s : ConverterState) (file : File) (h : Inv s) :
    Inv (addFileToList env s file) := by
  unfold Inv at h ⊢
  simp only [addFileToList, heldUrls, List.map_append, List.map_cons, List.map_nil]
  exact storeOk_alloc h (by
    simp only [heldUrls, List.append_assoc, List.singleton_append]
    exact List.perm_middle)

theorem inv_processFiles (env : Env) (s : ConverterState) (files : List File) (h : Inv s) :
    Inv (processFiles env s files) := by
  unfold processFiles
  split
  · exact h
  · generalize files.filter isImage = l
    induction l generalizing s with
    | nil => exact h
    | cons file rest ih =>
      rw [List.foldl_cons]
      apply ih
      split
      · exact h
      · exact inv_addFileToList env s file h

theorem spliceFirst_perm (p : FileData → Bool) :
    ∀ (l : List FileData) (f : FileData) (rest : List FileData),
      spliceFirst p l = some (f, rest) → l.Perm (f :: rest)
  | [], f, rest, h => by simp [spliceFirst] at h
  | g :: l, f, rest, h => by
    unfold spliceFirst at h
    by_cases hp : p g = true
    · rw [if_pos hp] at h
      cases h
      exact List.Perm.refl _
    · rw [if_neg hp] at h
      cases hs : spliceFirst p l with
      | none => rw [hs] at h; cases h
      | some pr =>
        obtain ⟨f', rest'⟩ := pr
        rw [hs] at h
        cases h
        exact ((spliceFirst_perm p l f rest' hs).cons g).trans (List.Perm.swap f g rest')

theorem inv_removeFile (s : ConverterState) (fileId : Nat) (h : Inv s) :
    Inv (removeFile s fileId) := by
  unfold removeFile
  cases hs : spliceFirst (fun f => f.id == fileId) s.uploadedFiles with
  | none => exact h
  | some pr =>
    obtain ⟨f, rest⟩ := pr
    have hperm := spliceFirst_perm _ _ _ _ hs
    have e : revokeObjectURL s f.url = revokeAll [f.url] s := rfl
    simp only [e, revokeAll_eq]
    unfold Inv at h ⊢
    simp only [heldUrls]
    apply storeOk_release [f.url] _ h
    simp only [heldUrls, List.singleton_append]
    have := (hperm.map (fun f => f.url)).append_right (s.convertedFiles.map (fun f => f.url))
    simpa using this

theorem inv_clearAllFiles (s : ConverterState) (h : Inv s) : Inv (clearAllFiles s) := by
  rw [clearAllFiles_eq]
  unfold Inv at h ⊢
  simp only [heldUrls, List.map_nil, List.append_nil]
  have h1 := storeOk_release (s.uploadedFiles.map (fun f => f.url))
    (s.convertedFiles.map (fun f => f.url)) h (by unfold heldUrls; exact List.Perm.refl _)
  have h2 := storeOk_release (s.convertedFiles.map (fun f => f.url)) [] h1 (by simp)
  exact h2

theorem convertSingleImage_eq (env : Env) (s : ConverterState) (fileData : FileData) :
    convertSingleImage env s fileData env.outputFormat env.quality env.newWidth env.newHeight =
      match outcome env fileData with
      | none => (s, none)
      | some out =>
        ({ s with live := s.live ++ [s.nextUrl], nextUrl := s.nextUrl + 1,
                  nextId := s.nextId + 1 },
         some (resultRecord env fileData out.1 out.2 s.nextId s.nextUrl)) := by
  unfold convertSingleImage outcome
  cases env.decode fileData with
  | none => rfl
  | some wh =>
    obtain ⟨w, h⟩ := wh
    simp only
    cases env.encode fileData (calculateDimensions w h env.newWidth env.newHeight)
        (getMimeType env.outputFormat) env.quality with
    | none => rfl
    | some blob => rfl

theorem inv_of_fields {s t : ConverterState} (h : Inv s)
    (h1 : t.uploadedFiles = s.uploadedFiles) (h2 : t.convertedFiles = s.convertedFiles)
    (h3 : t.live = s.live) (h4 : t.revoked = s.revoked) (h5 : t.nextUrl = s.nextUrl) :
    Inv t := by
  unfold Inv heldUrls at h ⊢
  rw [h1, h2, h3, h4, h5]
  exact h

theorem inv_push (s : ConverterState) (cf : ConvertedFile) (t : List Event) (k : Nat)
    (h : Inv s) (hu : cf.url = s.nextUrl) :
    Inv { s with live := s.live ++ [s.nextUrl], nextUrl := s.nextUrl + 1, nextId := k,
                 convertedFiles := s.convertedFiles ++ [cf], trace := t } := by
  unfold Inv at h ⊢
  simp only [heldUrls, List.map_append, List.map_cons, List.map_nil, hu]
  apply storeOk_alloc h
  simp only [heldUrls]
  rw [← List.append_assoc]
  exact List.perm_append_singleton _ _

theorem inv_convertLoop (env : Env) (totalFiles : Nat) :
    ∀ (files : List FileData) (i : Nat) (s : ConverterState), Inv s →
      Inv (convertLoop env env.outputFormat env.quality env.newWidth env.newHeight
        totalFiles i files s).1
  | [], i, s, h => by simpa [convertLoop] using h
  | fileData :: rest, i, s, h => by
    unfold convertLoop
    split
    · exact h
    · rw [convertSingleImage_eq]
      cases ho : outcome env fileData with
      | none =>
        simp only
        split
        · exact inv_of_fields h rfl rfl rfl rfl rfl
        · exact inv_convertLoop env totalFiles rest (i + 1) _
            (inv_of_fields h rfl rfl rfl rfl rfl)
      | some out =>
        simp only
        have hpush := inv_push s (resultRecord env fileData out.1 out.2 s.nextId s.nextUrl)
          (s.trace ++ [Event.progress (i + 1) totalFiles, Event.attempt i fileData]
            ++ [Event.settled i true]) (s.nextId + 1) h rfl
        split
        · exact inv_of_fields hpush rfl rfl rfl rfl rfl
        · exact inv_convertLoop env totalFiles rest (i + 1) _
            (inv_of_fields hpush rfl rfl rfl rfl rfl)

theorem inv_resetResults (s : ConverterState) (b : Bool) (h : Inv s) :
    Inv { revokeAll (s.convertedFiles.map (fun f => f.url)) { s with isConverting := b }
          with convertedFiles := [] } := by
  rw [revokeAll_eq]
  unfold Inv at h ⊢
  simp only [heldUrls, List.map_nil, List.append_nil]
  apply storeOk_release (s.convertedFiles.map (fun f => f.url)) _ h
  unfold heldUrls
  exact List.perm_append_comm

theorem inv_tryBlock (env : Env) (s : ConverterState) (b : Bool) (h : Inv s) :
    Inv (tryBlock env { s with isConverting := b }).1 := by
  unfold tryBlock
  split
  · exact inv_resetResults s b h
  · have := inv_convertLoop env s.uploadedFiles.length s.uploadedFiles 0 _
      (inv_resetResults s b h)
    simp only at this ⊢
    split
    · rename_i s' heq
      rw [heq] at this
      exact this
    · rename_i s' heq
      rw [heq] at this
      exact this

theorem inv_convertImages (env : Env) (s : ConverterState) (h : Inv s) :
    Inv (convertImages env s).1 := by
  unfold convertImages
  split
  · exact h
  · split
    · exact inv_of_fields h rfl rfl rfl rfl rfl
    · exact inv_of_fields (inv_tryBlock env s true h) rfl rfl rfl rfl rfl

theorem inv_step (s : ConverterState) (call : Env × Op) (h : Inv s) : Inv (step s call) := by
  unfold step
  split
  · exact inv_processFiles _ _ _ h
  · exact inv_removeFile _ _ h
  · exact inv_clearAllFiles _ h
  · exact inv_convertImages _ _ h

theorem inv_run (calls : List (Env × Op)) (s : ConverterState) (h : Inv s) :
    Inv (run calls s) := by
  unfold run
  induction calls generalizing s with
  | nil => exact h
  | cons call rest ih => exact ih _ (inv_step s call h)

theorem convertImages_clears_guard_after_setup (env : Env) (s : ConverterState)
    (hidle : s.isConverting = false)
    (hsetup : (setupSteps env.resizeChecked).any env.fault = false) :
    (convertImages env s).1.isConverting = false := by
  unfold convertImages
  split
  · exact hidle
  · rw [if_neg (by simp [hsetup])]

theorem attempts_append (t u : List Event) : attempts (t ++ u) = attempts t ++ attempts u := by
  simp [attempts, List.filterMap_append]

theorem resolved_cons_none (env : Env) (f : FileData) (rest : List FileData)
    (h : outcome env f = none) : resolved env (f :: rest) = resolved env rest := by
  simp [resolved, List.filterMap_cons, h]

theorem resolved_cons_some (env : Env) (f : FileData) (rest : List FileData)
    (out : Blob × Dimensions) (h : outcome env f = some out) :
    resolved env (f :: rest) = (f, out.1, out.2) :: resolved env rest := by
  simp [resolved, List.filterMap_cons, h]

theorem convertLoop_quiet (env : Env) (hq : ∀ st, env.fault st = false) (totalFiles : Nat) :
    ∀ (files : List FileData) (i : Nat) (s : ConverterState),
      (convertLoop env env.outputFormat env.quality env.newWidth env.newHeight
        totalFiles i files s).2 = false ∧
      (convertLoop env env.outputFormat env.quality env.newWidth env.newHeight
        totalFiles i files s).1.convertedFiles
        = s.convertedFiles ++ numberRecords env s.nextId s.nextUrl (resolved env files) ∧
      attempts (convertLoop env env.outputFormat env.quality env.newWidth env.newHeight
        totalFiles i files s).1.trace = attempts s.trace ++ files ∧
      (convertLoop env env.outputFormat env.quality env.newWidth env.newHeight
        totalFiles i files s).1.uploadedFiles = s.uploadedFiles
  | [], i, s => by simp [convertLoop, resolved, numberRecords]
  | fileData :: rest, i, s => by
    unfold convertLoop
    rw [if_neg (by simp [hq]), convertSingleImage_eq]
    cases ho : outcome env fileData with
    | none =>
      simp only
      rw [if_neg (by simp [hq])]
      obtain ⟨h1, h2, h3, h4⟩ := convertLoop_quiet env hq totalFiles rest (i + 1)
        { s with trace := s.trace ++ [Event.progress (i + 1) totalFiles, Event.attempt i fileData]
                   ++ [Event.settled i false] }
      refine ⟨h1, ?_, ?_, h4⟩
      · rw [h2, resolved_cons_none env fileData rest ho]
      · rw [h3]
        simp [attempts]
    | some out =>
      simp only
      rw [if_neg (by simp [hq])]
      obtain ⟨h1, h2, h3, h4⟩ := convertLoop_quiet env hq totalFiles rest (i + 1)
        { s with live := s.live ++ [s.nextUrl], nextUrl := s.nextUrl + 1, nextId := s.nextId + 1,
                 convertedFiles := s.convertedFiles ++
                   [resultRecord env fileData out.1 out.2 s.nextId s.nextUrl],
                 trace := s.trace ++ [Event.progress (i + 1) totalFiles, Event.attempt i fileData]
                   ++ [Event.settled i true] }
      refine ⟨h1, ?_, ?_, h4⟩
      · rw [h2, resolved_cons_some env fileData rest out ho]
        simp [numberRecords]
      · rw [h3]
        simp [attempts]

theorem length_numberRecords (env : Env) :
    ∀ (l : List (FileData × Blob × Dimensions)) (k u : Nat),
      (numberRecords env k u l).length = l.length
  | [], k, u => rfl
  | (f, b, d) :: rest, k, u => by
    simp [numberRecords, length_numberRecords env rest (k + 1) (u + 1)]

theorem length_resolved (env : Env) (files : List FileData) :
    (resolved env files).length = (files.filter (fun f => (outcome env f).isSome)).length := by
  induction files with
  | nil => rfl
  | cons f rest ih =>
    cases ho : outcome env f with
    | none =>
      rw [resolved_cons_none env f rest ho, ih]
      simp [List.filter_cons, ho]
    | some out =>
      rw [resolved_cons_some env f rest out ho]
      simp [List.filter_cons, ho, ih]

theorem convertImages_quiet (env : Env) (s : ConverterState) (hq : ∀ st, env.fault st = false)
    (hidle : s.isConverting = false) (hne : s.uploadedFiles ≠ []) :
    convertImages env s =
      ({ (convertLoop env env.outputFormat env.quality env.newWidth env.newHeight
            s.uploadedFiles.length 0 s.uploadedFiles
            { revokeAll (s.convertedFiles.map (fun f => f.url)) { s with isConverting := true }
              with convertedFiles := [] }).1 with isConverting := false }, .fulfilled) := by
  have hlen : (s.uploadedFiles.length == 0) = false := by
    cases hl : s.uploadedFiles with
    | nil => exact absurd hl hne
    | cons a l => rfl
  have hloop := (convertLoop_quiet env hq s.uploadedFiles.length s.uploadedFiles 0
    { revokeAll (s.convertedFiles.map (fun f => f.url)) { s with isConverting := true }
      with convertedFiles := [] }).1
  unfold convertImages
  rw [if_neg (by simp [hidle, hlen]), if_neg (by simp [hq])]
  unfold tryBlock
  simp only [hq, Bool.false_eq_true, if_false, Bool.and_false]
  generalize convertLoop env env.outputFormat env.quality env.newWidth env.newHeight
    s.uploadedFiles.length 0 s.uploadedFiles
    { revokeAll (s.convertedFiles.map (fun f => f.url)) { s with isConverting := true }
      with convertedFiles := [] } = r at hloop ⊢
  obtain ⟨s', b⟩ := r
  simp only at hloop
  subst hloop
  rfl

theorem processFiles_fold (env : Env) :
    ∀ (l : List File) (s : ConverterState), (s.uploadedFiles.map fileKey).Nodup →
      ((l.foldl (fun st file =>
          if (st.uploadedFiles.find? (fun f => f.file.name = file.name
            && f.file.size = file.size)).isSome
          then st else addFileToList env st file) s).uploadedFiles.map fileKey).Nodup ∧
      (∀ k ∈ s.uploadedFiles.map fileKey,
        k ∈ (l.foldl (fun st file =>
          if (st.uploadedFiles.find? (fun f => f.file.name = file.name
            && f.file.size = file.size)).isSome
          then st else addFileToList env st file) s).uploadedFiles.map fileKey) ∧
      (∀ file ∈ l, (file.name, file.size) ∈
        (l.foldl (fun st file =>
          if (st.uploadedFiles.find? (fun f => f.file.name = file.name
            && f.file.size = file.size)).isSome
          then st else addFileToList env st file) s).uploadedFiles.map fileKey)
  | [], s, h => ⟨h, fun k hk => hk, fun file hf => by simp at hf⟩
  | file :: rest, s, h => by
    rw [List.foldl_cons]
    by_cases hfind : (s.uploadedFiles.find? (fun f => f.file.name = file.name
        && f.file.size = file.size)).isSome = true
    · rw [if_pos hfind]
      obtain ⟨h1, h2, h3⟩ := processFiles_fold env rest s h
      refine ⟨h1, h2, ?_⟩
      intro g hg
      rcases List.mem_cons.1 hg with hg | hg
      · subst hg
        apply h2
        rw [List.find?_isSome] at hfind
        obtain ⟨x, hx, hp⟩ := hfind
        simp only [Bool.and_eq_true, decide_eq_true_eq] at hp
        rw [List.mem_map]
        exact ⟨x, hx, by simp [fileKey, hp.1, hp.2]⟩
      · exact h3 g hg
    · rw [if_neg hfind]
      have hnew : (file.name, file.size) ∉ s.uploadedFiles.map fileKey := by
        intro hm
        apply hfind
        rw [List.find?_isSome]
        rw [List.mem_map] at hm
        obtain ⟨x, hx, hk⟩ := hm
        simp only [fileKey, Prod.mk.injEq] at hk
        exact ⟨x, hx, by simp [hk.1, hk.2]⟩
      have hnd : ((addFileToList env s file).uploadedFiles.map fileKey).Nodup := by
        simp only [addFileToList, List.map_append, List.map_cons, List.map_nil, fileKey]
        rw [List.nodup_append]
        refine ⟨h, List.nodup_singleton _, ?_⟩
        intro a ha hb
        rw [List.mem_singleton] at hb
        exact hnew (hb ▸ ha)
      obtain ⟨h1, h2, h3⟩ := processFiles_fold env rest (addFileToList env s file) hnd
      refine ⟨h1, ?_, ?_⟩
      · intro k hk
        apply h2
        simp only [addFileToList, List.map_append, List.mem_append]
        exact Or.inl hk
      · intro g hg
        rcases List.mem_cons.1 hg with hg | hg
        · subst hg
          apply h2
          simp [addFileToList, fileKey]
        · exact h3 g hg

theorem length_filter_key (name : String) (size : Nat) :
    ∀ (l : List FileData), (l.map fileKey).Nodup → (name, size) ∈ l.map fileKey →
      (l.filter (fun f => f.file.name = name && f.file.size = size)).length = 1
  | [], _, hm => by simp at hm
  | f :: rest, hnd, hm => by
    rw [List.map_cons, List.nodup_cons] at hnd
    obtain ⟨hnot, hrest⟩ := hnd
    by_cases hk : f.file.name = name ∧ f.file.size = size
    · have hkey : fileKey f = (name, size) := by simp [fileKey, hk.1, hk.2]
      rw [hkey] at hnot
      have hnil : rest.filter (fun f => f.file.name = name && f.file.size = size) = [] := by
        rw [List.filter_eq_nil_iff]
        intro g hg hp
        simp only [Bool.and_eq_true, decide_eq_true_eq] at hp
        apply hnot
        rw [List.mem_map]
        exact ⟨g, hg, by simp [fileKey, hp.1, hp.2]⟩
      rw [List.filter_cons, if_pos (by simp [hk.1, hk.2]), hnil]
      rfl
    · have hm' : (name, size) ∈ rest.map fileKey := by
        rw [List.map_cons, List.mem_cons] at hm
        rcases hm with hm | hm
        · exfalso
          apply hk
          simp only [fileKey, Prod.mk.injEq] at hm
          exact ⟨hm.1.symm, hm.2.symm⟩
        · exact hm
      rw [List.filter_cons, if_neg (by simpa using hk)]
      exact length_filter_key name size rest hrest hm'

/-! ## Dimension calculator: the four cases -/

theorem calculateDimensions_width_only (w h : JSNum) (t : Nat) (ht : 0 < t) :
    calculateDimensions w h (some (JSNum.ofNat t)) none =
      { width := JSNum.ofNat t,
        height := JSNum.round (JSNum.mul (JSNum.ofNat t) (JSNum.div h w)) } := by
  have h1 := truthy_ofNat t ht
  have h2 : truthy none = none := rfl
  unfold calculateDimensions
  rw [h1, h2]

theorem calculateDimensions_height_only (w h : JSNum) (t : Nat) (ht : 0 < t) :
    calculateDimensions w h none (some (JSNum.ofNat t)) =
      { width := JSNum.round (JSNum.mul (JSNum.ofNat t) (JSNum.div w h)),
        height := JSNum.ofNat t } := by
  have h1 := truthy_ofNat t ht
  have h2 : truthy none = none := rfl
  unfold calculateDimensions
  rw [h1, h2]

theorem calculateDimensions_both (w h : JSNum) (a b : Nat) (ha : 0 < a) (hb : 0 < b) :
    calculateDimensions w h (some (JSNum.ofNat a)) (some (JSNum.ofNat b)) =
      { width := JSNum.ofNat a, height := JSNum.ofNat b } := by
  have h1 := truthy_ofNat a ha
  have h2 := truthy_ofNat b hb
  unfold calculateDimensions
  rw [h1, h2]

theorem calculateDimensions_neither (w h : JSNum) :
    calculateDimensions w h none none = { width := w, height := h } := rfl

/-! ## The claims -/

/-- C1, as stated, fails: for a 200 × 201 image and target width 100 the method returns
height 100, because `201 / 200` and its product with `100` are rounded to binary64 before
`Math.round` (the product is `100.49999999999999`), while the exact quotient `100.5`
rounds to 101. -/
theorem calculateDimensions_width_only_inexact :
    calculateDimensions (JSNum.ofNat 200) (JSNum.ofNat 201) (some (JSNum.ofNat 100)) none
      = { width := JSNum.ofNat 100, height := JSNum.ofNat 100 } ∧
    exactRound (100 * 201) 200 = 101 ∧
    (calculateDimensions (JSNum.ofNat 200) (JSNum.ofNat 201) (some (JSNum.ofNat 100)) none).height
      ≠ JSNum.fin ((exactRound (100 * 201) 200 : Int) : ℚ) := by
  have hcode : calculateDimensions (JSNum.ofNat 200) (JSNum.ofNat 201)
      (some (JSNum.ofNat 100)) none
      = { width := JSNum.ofNat 100, height := JSNum.ofNat 100 } := by decide
  have hexact : exactRound (100 * 201) 200 = 101 := by
    unfold exactRound
    rw [Int.floor_eq_iff]
    norm_num
  refine ⟨hcode, hexact, ?_⟩
  rw [hcode, hexact]
  intro h
  simp only [JSNum.ofNat, JSNum.fin.injEq] at h
  norm_num at h

/-- C1, amended: for positive integers `w`, `h`, `t` with `t * w < 2 ^ 51` and
`t * h < 2 ^ 51`, `calculateDimensions(w, h, t, absent)` returns width `t` and a height
that is the exact quotient `t * h / w` rounded to the nearest integer whenever that
quotient is not halfway between two integers; when it is halfway, the height is that
rounded-up value or the integer just below it.  Symmetrically for a height-only target. -/
theorem calculateDimensions_single_target (w h t : Nat) (hw : 0 < w) (hh : 0 < h) (ht : 0 < t)
    (hbw : t * w < 2 ^ 51) (hbh : t * h < 2 ^ 51) :
    (calculateDimensions (JSNum.ofNat w) (JSNum.ofNat h) (some (JSNum.ofNat t)) none).width
      = JSNum.ofNat t ∧
    (¬ isHalfway (t * h) w →
      (calculateDimensions (JSNum.ofNat w) (JSNum.ofNat h) (some (JSNum.ofNat t)) none).height
        = JSNum.fin ((exactRound (t * h) w : Int) : ℚ)) ∧
    (isHalfway (t * h) w →
      (calculateDimensions (JSNum.ofNat w) (JSNum.ofNat h) (some (JSNum.ofNat t)) none).height
        = JSNum.fin ((exactRound (t * h) w : Int) : ℚ) ∨
      (calculateDimensions (JSNum.ofNat w) (JSNum.ofNat h) (some (JSNum.ofNat t)) none).height
        = JSNum.fin ((exactRound (t * h) w - 1 : Int) : ℚ)) ∧
    (calculateDimensions (JSNum.ofNat w) (JSNum.ofNat h) none (some (JSNum.ofNat t))).height
      = JSNum.ofNat t ∧
    (¬ isHalfway (t * w) h →
      (calculateDimensions (JSNum.ofNat w) (JSNum.ofNat h) none (some (JSNum.ofNat t))).width
        = JSNum.fin ((exactRound (t * w) h : Int) : ℚ)) ∧
    (isHalfway (t * w) h →
      (calculateDimensions (JSNum.ofNat w) (JSNum.ofNat h) none (some (JSNum.ofNat t))).width
        = JSNum.fin ((exactRound (t * w) h : Int) : ℚ) ∨
      (calculateDimensions (JSNum.ofNat w) (JSNum.ofNat h) none (some (JSNum.ofNat t))).width
        = JSNum.fin ((exactRound (t * w) h - 1 : Int) : ℚ)) := by
  have hwb : w < 2 ^ 53 := by
    have : w ≤ t * w := Nat.le_mul_of_pos_left w ht
    omega
  have hhb : h < 2 ^ 53 := by
    have : h ≤ t * h := Nat.le_mul_of_pos_left h ht
    omega
  rw [calculateDimensions_width_only _ _ t ht, calculateDimensions_height_only _ _ t ht]
  obtain ⟨a1, a2⟩ := scaled_round w h t hw hh ht hwb hbh
  obtain ⟨b1, b2⟩ := scaled_round h w t hh hw ht hhb hbw
  exact ⟨rfl, a1, a2, rfl, b1, b2⟩

/-- Witness of C1 amended: a 4 × 3 image with target 2. -/
theorem calculateDimensions_single_target_witness :
    (calculateDimensions (JSNum.ofNat 4) (JSNum.ofNat 3) (some (JSNum.ofNat 2)) none).width
      = JSNum.ofNat 2 ∧
    (¬ isHalfway (2 * 3) 4 →
      (calculateDimensions (JSNum.ofNat 4) (JSNum.ofNat 3) (some (JSNum.ofNat 2)) none).height
        = JSNum.fin ((exactRound (2 * 3) 4 : Int) : ℚ)) ∧
    (isHalfway (2 * 3) 4 →
      (calculateDimensions (JSNum.ofNat 4) (JSNum.ofNat 3) (some (JSNum.ofNat 2)) none).height
        = JSNum.fin ((exactRound (2 * 3) 4 : Int) : ℚ) ∨
      (calculateDimensions (JSNum.ofNat 4) (JSNum.ofNat 3) (some (JSNum.ofNat 2)) none).height
        = JSNum.fin ((exactRound (2 * 3) 4 - 1 : Int) : ℚ)) ∧
    (calculateDimensions (JSNum.ofNat 4) (JSNum.ofNat 3) none (some (JSNum.ofNat 2))).height
      = JSNum.ofNat 2 ∧
    (¬ isHalfway (2 * 4) 3 →
      (calculateDimensions (JSNum.ofNat 4) (JSNum.ofNat 3) none (some (JSNum.ofNat 2))).width
        = JSNum.fin ((exactRound (2 * 4) 3 : Int) : ℚ)) ∧
    (isHalfway (2 * 4) 3 →
      (calculateDimensions (JSNum.ofNat 4) (JSNum.ofNat 3) none (some (JSNum.ofNat 2))).width
        = JSNum.fin ((exactRound (2 * 4) 3 : Int) : ℚ) ∨
      (calculateDimensions (JSNum.ofNat 4) (JSNum.ofNat 3) none (some (JSNum.ofNat 2))).width
        = JSNum.fin ((exactRound (2 * 4) 3 - 1 : Int) : ℚ)) :=
  calculateDimensions_single_target 4 3 2 (by decide) (by decide) (by decide)
    (by decide) (by decide)

/-- C2, as stated, fails: for a 1000 × 1 image and target width 1 the returned height is
0; the method has no clamp. -/
theorem calculateDimensions_height_zero :
    calculateDimensions (JSNum.ofNat 1000) (JSNum.ofNat 1) (some (JSNum.ofNat 1)) none
      = { width := JSNum.ofNat 1, height := JSNum.ofNat 0 } ∧
    (calculateDimensions (JSNum.ofNat 1000) (JSNum.ofNat 1) (some (JSNum.ofNat 1)) none).height.atLeastOne
      = false := by
  decide

/-- C2, amended: for positive integers `w`, `h` below `2 ^ 53` and targets that are each
absent or a positive integer below `2 ^ 53`, both returned dimensions are at least 1
provided that, when exactly one target `t` is given, the exact quotient for the other side
is above one half (`w < 2 * t * h` for a width-only target, `h < 2 * t * w` for a
height-only target), that is, it neither rounds to 0 nor is the tie `1 / 2`. -/
theorem calculateDimensions_at_least_one (w h : Nat) (tw th : Option Nat)
    (hw : 0 < w) (hh : 0 < h) (hwb : w < 2 ^ 53) (hhb : h < 2 ^ 53)
    (htw : ∀ t ∈ tw, 0 < t ∧ t < 2 ^ 53) (hth : ∀ t ∈ th, 0 < t ∧ t < 2 ^ 53)
    (hgw : th = none → ∀ t ∈ tw, w < 2 * (t * h))
    (hgh : tw = none → ∀ t ∈ th, h < 2 * (t * w)) :
    (calculateDimensions (JSNum.ofNat w) (JSNum.ofNat h)
      (tw.map JSNum.ofNat) (th.map JSNum.ofNat)).width.atLeastOne = true ∧
    (calculateDimensions (JSNum.ofNat w) (JSNum.ofNat h)
      (tw.map JSNum.ofNat) (th.map JSNum.ofNat)).height.atLeastOne = true := by
  have one_le : ∀ n : Nat, 0 < n → (JSNum.ofNat n).atLeastOne = true := by
    intro n hn
    simp only [JSNum.ofNat, JSNum.atLeastOne, decide_eq_true_eq]
    exact_mod_cast hn
  have one_le_int : ∀ z : Int, 1 ≤ z → (JSNum.fin (z : ℚ)).atLeastOne = true := by
    intro z hz
    simp only [JSNum.atLeastOne, decide_eq_true_eq]
    exact_mod_cast hz
  cases tw with
  | none =>
    cases th with
    | none =>
      simp only [Option.map_none', calculateDimensions_neither]
      exact ⟨one_le w hw, one_le h hh⟩
    | some b =>
      obtain ⟨hb0, hbb⟩ := hth b rfl
      have hgt := hgh rfl b rfl
      simp only [Option.map_none', Option.map_some']
      rw [calculateDimensions_height_only _ _ b hb0]
      obtain ⟨z, hz, hz1⟩ := scaled_round_above_half h w b hh hw hb0 hhb hwb hbb hgt
      simp only [hz]
      exact ⟨one_le_int z hz1, one_le b hb0⟩
  | some a =>
    obtain ⟨ha0, hab⟩ := htw a rfl
    cases th with
    | none =>
      have hgt := hgw rfl a rfl
      simp only [Option.map_none', Option.map_some']
      rw [calculateDimensions_width_only _ _ a ha0]
      obtain ⟨z, hz, hz1⟩ := scaled_round_above_half w h a hw hh ha0 hwb hhb hab hgt
      simp only [hz]
      exact ⟨one_le a ha0, one_le_int z hz1⟩
    | some b =>
      obtain ⟨hb0, hbb⟩ := hth b rfl
      simp only [Option.map_some', calculateDimensions_both _ _ a b ha0 hb0]
      exact ⟨one_le a ha0, one_le b hb0⟩

/-- Witness of C2 amended: a 3 × 2 image with target width 1, whose exact scaled height
`2 / 3` is below 1 and above one half: the result is 1 × 1. -/
theorem calculateDimensions_at_least_one_witness :
    (calculateDimensions (JSNum.ofNat 3) (JSNum.ofNat 2)
      ((some 1).map JSNum.ofNat) ((none : Option Nat).map JSNum.ofNat)).width.atLeastOne = true ∧
    (calculateDimensions (JSNum.ofNat 3) (JSNum.ofNat 2)
      ((some 1).map JSNum.ofNat) ((none : Option Nat).map JSNum.ofNat)).height.atLeastOne = true :=
  calculateDimensions_at_least_one 3 2 (some 1) none (by decide) (by decide) (by decide)
    (by decide) (by intro t ht; cases ht; decide) (by intro t ht; cases ht)
    (by intro _ t ht; cases ht; decide) (by intro hn; cases hn)

/-- C3, as stated, fails: a name that ends in `.` keeps its dot, because the pattern
`\.[^/.]+$` needs at least one character after the dot; the specification's derivation
drops the dot. -/
theorem generateFileName_trailing_dot :
    generateFileName "photo." "png" = "photo..png" ∧
    deriveName "photo." "png" = "photo.png" ∧
    generateFileName "photo." "png" ≠ deriveName "photo." "png" := by
  decide

/-- C3, amended: `generateFileName(originalName, format)` removes the last `.` of the name
and everything after it exactly when at least one character follows that dot and none of
the following characters is `/`; otherwise (no dot, a trailing dot, or a `/` after the last
dot) nothing is removed.  Then `.` and the format are appended; so
`generateFileName("photo.tiff", "png") = "photo.png"` and
`generateFileName("noext", "png") = "noext.png"`. -/
theorem generateFileName_strips_plain_extension :
    (∀ originalName format : String,
      generateFileName originalName format =
        if hasPlainExtension originalName.data then deriveName originalName format
        else originalName ++ "." ++ format) ∧
    generateFileName "photo.tiff" "png" = "photo.png" ∧
    generateFileName "noext" "png" = "noext.png" := by
  refine ⟨?_, by decide, by decide⟩
  intro originalName format
  unfold generateFileName deriveName
  rw [stripExtension_eq]
  split
  · rfl
  · apply String.ext
    simp [String.data_append]

/-- C4 at the failing input: for the format string `constructor`, which is not in the
table, `getMimeType` does not return `image/png`: the read `mimeTypes[format]` finds the
member inherited from `Object.prototype`, which is truthy, so the fallback is not taken. -/
theorem getMimeType_inherited_key :
    getMimeType "constructor" = MimeValue.inherited "constructor" ∧
    getMimeType "constructor" ≠ MimeValue.str "image/png" ∧
    mimeTypes.lookup "constructor" = none := by
  decide

/-- C5: on a platform whose page statements all work, a run of `convertImages` started
while no batch is running, over a non-empty list of sources and any prior results,
fulfils; it attempts every source exactly once in list order; it ends with
`convertedFiles` equal to exactly the records of the sources that resolved, in source
order (numbered from the identifier index and URL the run started with); so the number of
results is the number of resolving sources and at most the number of sources, and three
sources of which only the second fails leave exactly two results. -/
theorem convertImages_batch (env : Env) (s : ConverterState)
    (hq : ∀ st, env.fault st = false) (hidle : s.isConverting = false)
    (hne : s.uploadedFiles ≠ []) :
    (convertImages env s).2 = Completion.fulfilled ∧
    attempts (convertImages env s).1.trace = attempts s.trace ++ s.uploadedFiles ∧
    (convertImages env s).1.convertedFiles
      = numberRecords env s.nextId s.nextUrl (resolved env s.uploadedFiles) ∧
    (convertImages env s).1.convertedFiles.length
      = (s.uploadedFiles.filter (fun f => (outcome env f).isSome)).length ∧
    (convertImages env s).1.convertedFiles.length ≤ s.uploadedFiles.length ∧
    (convertImages env s).1.uploadedFiles = s.uploadedFiles ∧
    (∀ a b c : FileData, s.uploadedFiles = [a, b, c] → (outcome env a).isSome = true →
      outcome env b = none → (outcome env c).isSome = true →
      (convertImages env s).1.convertedFiles.length = 2) := by
  rw [convertImages_quiet env s hq hidle hne]
  obtain ⟨-, h2, h3, h4⟩ := convertLoop_quiet env hq s.uploadedFiles.length s.uploadedFiles 0
    { revokeAll (s.convertedFiles.map (fun f => f.url)) { s with isConverting := true }
      with convertedFiles := [] }
  rw [revokeAll_eq] at h2 h3 h4
  simp only [List.nil_append] at h2 h3 h4
  rw [revokeAll_eq]
  have hlen : (numberRecords env s.nextId s.nextUrl (resolved env s.uploadedFiles)).length
      = (s.uploadedFiles.filter (fun f => (outcome env f).isSome)).length := by
    rw [length_numberRecords, length_resolved]
  refine ⟨rfl, h3, h2, ?_, ?_, h4, ?_⟩
  · simp only [h2, hlen]
  · simp only [h2, hlen]
    exact List.length_filter_le _ _
  · intro a b c habc ha hb hc
    have h3' : (s.uploadedFiles.filter (fun f => (outcome env f).isSome)).length = 2 := by
      rw [habc]
      simp [List.filter_cons, ha, hb, hc]
    simp only [h2, hlen, h3']

/-- Witness of C5: three uploaded sources, of which the one named `b.png` fails to decode,
leave exactly two results. -/
theorem convertImages_batch_witness :
    (convertImages secondFailsEnv threeUploaded).1.convertedFiles.length = 2 ∧
    threeUploaded.uploadedFiles.length = 3 ∧
    attempts (convertImages secondFailsEnv threeUploaded).1.trace
      = attempts threeUploaded.trace ++ threeUploaded.uploadedFiles :=
  ⟨by decide, by decide,
    (convertImages_batch secondFailsEnv threeUploaded (fun _ => rfl) (by decide)
      (by decide)).2.1⟩

/-- C6: if no two records of `uploadedFiles` have the same (name, size), then after
`processFiles(files)`, for every list of files, still no two records have the same
(name, size); and every image file of the list, however often it is repeated in the list
or was registered before, has exactly one record. -/
theorem processFiles_keeps_keys_unique (env : Env) (s : ConverterState) (files : List File)
    (h : (s.uploadedFiles.map fileKey).Nodup) :
    ((processFiles env s files).uploadedFiles.map fileKey).Nodup ∧
    (∀ file ∈ files, isImage file = true →
      ((processFiles env s files).uploadedFiles.filter
        (fun f => f.file.name = file.name && f.file.size = file.size)).length = 1) := by
  unfold processFiles
  split
  · rename_i h0
    refine ⟨h, ?_⟩
    intro file hf hi
    have hmem : file ∈ files.filter isImage := List.mem_filter.2 ⟨hf, hi⟩
    have : files.filter isImage = [] := List.length_eq_zero.1 h0
    rw [this] at hmem
    cases hmem
  · obtain ⟨h1, -, h3⟩ := processFiles_fold env (files.filter isImage) s h
    refine ⟨h1, ?_⟩
    intro file hf hi
    exact length_filter_key file.name file.size _ h1 (h3 file (List.mem_filter.2 ⟨hf, hi⟩))

/-- Witness of C6: after three uploads, a call with a file already registered and a new
file given twice keeps the keys distinct: four records. -/
theorem processFiles_keeps_keys_unique_witness :
    (((processFiles quietEnv threeUploaded
        [{ name := "a.png", size := 1, type := "image/png" },
         { name := "d.png", size := 4, type := "image/png" },
         { name := "d.png", size := 4, type := "image/png" }]).uploadedFiles.map fileKey).Nodup) ∧
    (processFiles quietEnv threeUploaded
        [{ name := "a.png", size := 1, type := "image/png" },
         { name := "d.png", size := 4, type := "image/png" },
         { name := "d.png", size := 4, type := "image/png" }]).uploadedFiles.length = 4 :=
  ⟨(processFiles_keeps_keys_unique quietEnv threeUploaded _ (by decide)).1, by decide⟩

/-- C7: after every sequence of `processFiles`, `removeFile`, `clearAllFiles` and
`convertImages` calls from the initial state, on any platforms (any conversion outcomes,
any faulting page statements of `convertImages`), the live object URLs are exactly the URLs held by the
records of `uploadedFiles` and `convertedFiles`, each once; no URL was revoked twice and no
revoked URL is live; and a conversion either resolves or leaves the state as it was, so a
failed conversion leaves no handle and no result record. -/
theorem handles_match_records (calls : List (Env × Op)) :
    (run calls ConverterState.init).live.Perm (heldUrls (run calls ConverterState.init)) ∧
    (run calls ConverterState.init).live.Nodup ∧
    (run calls ConverterState.init).revoked.Nodup ∧
    (run calls ConverterState.init).revoked.Disjoint (run calls ConverterState.init).live ∧
    (∀ (env : Env) (s : ConverterState) (fileData : FileData),
      (convertSingleImage env s fileData env.outputFormat env.quality env.newWidth
        env.newHeight).2.isSome = true ∨
      convertSingleImage env s fileData env.outputFormat env.quality env.newWidth
        env.newHeight = (s, none)) := by
  obtain ⟨h1, h2, h3, -, -, h6⟩ := inv_run calls ConverterState.init inv_init
  refine ⟨h1, h2, h3, fun u hu => h6 u hu, ?_⟩
  intro env s fileData
  rw [convertSingleImage_eq]
  cases outcome env fileData with
  | none => exact Or.inr rfl
  | some out => exact Or.inl rfl

/-- C8, as stated, fails: a call made while a batch is running is not rejected; its
promise fulfils (the method returns at its first line, no error is raised). -/
theorem convertImages_busy_not_rejected :
    busyState.isConverting = true ∧
    (convertImages quietEnv busyState).2 = Completion.fulfilled ∧
    (convertImages quietEnv busyState).2 ≠ Completion.rejected := by
  decide

/-- C8, amended: for every state in which a batch is already running, a new call to
`convertImages` returns at once without an error (its promise fulfils) and starts no
second pass: the state, with its results and its record of attempts, is unchanged. -/
theorem convertImages_busy_returns (env : Env) (s : ConverterState)
    (hbusy : s.isConverting = true) :
    (convertImages env s).2 = Completion.fulfilled ∧
    (convertImages env s).1 = s ∧
    attempts (convertImages env s).1.trace = attempts s.trace := by
  have h : convertImages env s = (s, Completion.fulfilled) := by
    unfold convertImages
    rw [if_pos (by simp [hbusy])]
  rw [h]
  exact ⟨rfl, rfl, rfl⟩

/-- Witness of C8 amended: the busy state with three uploads. -/
theorem convertImages_busy_returns_witness :
    busyState.isConverting = true ∧
    (convertImages quietEnv busyState).2 = Completion.fulfilled ∧
    (convertImages quietEnv busyState).1 = busyState ∧
    attempts (convertImages quietEnv busyState).1.trace = attempts busyState.trace :=
  ⟨by decide, convertImages_busy_returns quietEnv busyState (by decide)⟩

/-- C9 at the failing input: on a page without the `output-format` control, the look-up
on line 315 faults after line 308 has set the guard and before the `try` of line 324 is
entered; the call rejects with `isConverting` still true, and the next call, on a sound
page, returns at its first line without converting anything. -/
theorem convertImages_guard_stuck :
    threeUploaded.isConverting = false ∧
    (convertImages missingControlEnv threeUploaded).2 = Completion.rejected ∧
    (convertImages missingControlEnv threeUploaded).1.isConverting = true ∧
    convertImages quietEnv (convertImages missingControlEnv threeUploaded).1
      = ((convertImages missingControlEnv threeUploaded).1, Completion.fulfilled) := by
  decide

/-- C10: after `clearAllFiles` both lists are empty, and the call released exactly the
handles of the records the two lists held before it, one release per record: the releases
it appended to the log are the held handles in list order, their number is the number of
records of the two lists, and the live URLs are the earlier ones without the held ones. -/
theorem clearAllFiles_releases_all (s : ConverterState) :
    (clearAllFiles s).uploadedFiles = [] ∧
    (clearAllFiles s).convertedFiles = [] ∧
    (clearAllFiles s).revoked = s.revoked ++ heldUrls s ∧
    (clearAllFiles s).revoked.length
      = s.revoked.length + (s.uploadedFiles.length + s.convertedFiles.length) ∧
    (clearAllFiles s).live = s.live.filter (fun u => !(heldUrls s).contains u) := by
  rw [clearAllFiles_eq]
  refine ⟨rfl, rfl, ?_, ?_, ?_⟩
  · simp [heldUrls]
  · simp [Nat.add_assoc]
  · simp only [heldUrls, List.filter_filter]
    apply List.filter_congr
    intro u _
    simp [Bool.and_comm]

/-! ## Progress events: lemmas -/

theorem itemTriples_cons (total k : Nat) (fileData : FileData) (b : Bool) (ev : List Event)
    (h : itemTriples total (k + 1) ev = true) :
    itemTriples total k
      (Event.progress (k + 1) total :: Event.attempt k fileData :: Event.settled k b :: ev)
      = true := by
  simp [itemTriples, h]

theorem convertLoop_trace (env : Env) (totalFiles : Nat) :
    ∀ (files : List FileData) (i : Nat) (s : ConverterState),
      ∃ ev : List Event,
        (convertLoop env env.outputFormat env.quality env.newWidth env.newHeight
          totalFiles i files s).1.trace = s.trace ++ ev ∧
        itemTriples totalFiles i ev = true
  | [], i, s => ⟨[], by simp [convertLoop], rfl⟩
  | fileData :: rest, i, s => by
    unfold convertLoop
    split
    · exact ⟨[], by simp, rfl⟩
    · rw [convertSingleImage_eq]
      cases ho : outcome env fileData with
      | none =>
        simp only
        split
        · exact ⟨[Event.progress (i + 1) totalFiles, Event.attempt i fileData,
            Event.settled i false], by simp, itemTriples_cons _ _ _ _ [] rfl⟩
        · obtain ⟨ev, h1, h2⟩ := convertLoop_trace env totalFiles rest (i + 1)
            { s with trace := s.trace ++ [Event.progress (i + 1) totalFiles,
                Event.attempt i fileData] ++ [Event.settled i false] }
          exact ⟨Event.progress (i + 1) totalFiles :: Event.attempt i fileData ::
            Event.settled i false :: ev, by rw [h1]; simp, itemTriples_cons _ _ _ _ ev h2⟩
      | some out =>
        simp only
        split
        · exact ⟨[Event.progress (i + 1) totalFiles, Event.attempt i fileData,
            Event.settled i true], by simp, itemTriples_cons _ _ _ _ [] rfl⟩
        · obtain ⟨ev, h1, h2⟩ := convertLoop_trace env totalFiles rest (i + 1)
            { s with live := s.live ++ [s.nextUrl], nextUrl := s.nextUrl + 1,
                     nextId := s.nextId + 1,
                     convertedFiles := s.convertedFiles ++
                       [resultRecord env fileData out.1 out.2 s.nextId s.nextUrl],
                     trace := s.trace ++ [Event.progress (i + 1) totalFiles,
                       Event.attempt i fileData] ++ [Event.settled i true] }
          exact ⟨Event.progress (i + 1) totalFiles :: Event.attempt i fileData ::
            Event.settled i true :: ev, by rw [h1]; simp, itemTriples_cons _ _ _ _ ev h2⟩

theorem tryBlock_trace (env : Env) (s : ConverterState) :
    ∃ ev : List Event, (tryBlock env s).1.trace = s.trace ++ ev ∧
      itemTriples s.uploadedFiles.length 0 ev = true := by
  unfold tryBlock
  split
  · exact ⟨[], by rw [revokeAll_eq]; simp, rfl⟩
  · obtain ⟨ev, h1, h2⟩ := convertLoop_trace env s.uploadedFiles.length s.uploadedFiles 0
      { revokeAll (s.convertedFiles.map (fun f => f.url)) s with convertedFiles := [] }
    refine ⟨ev, ?_, h2⟩
    split
    · rename_i s' heq
      rw [heq, revokeAll_eq] at h1
      exact h1
    · rename_i s' heq
      rw [heq, revokeAll_eq] at h1
      exact h1

theorem length_runEvents (env : Env) (total : Nat) :
    ∀ (i : Nat) (files : List FileData), (runEvents env total i files).length = 3 * files.length
  | _, [] => rfl
  | i, fileData :: rest => by
    simp only [runEvents, List.length_cons, length_runEvents env total (i + 1) rest]
    omega

theorem itemTriples_runEvents (env : Env) (total : Nat) :
    ∀ (i : Nat) (files : List FileData), itemTriples total i (runEvents env total i files) = true
  | _, [] => rfl
  | i, fileData :: rest => by
    unfold runEvents
    exact itemTriples_cons total i fileData _ _ (itemTriples_runEvents env total (i + 1) rest)

theorem convertLoop_trace_quiet (env : Env) (hq : ∀ st, env.fault st = false) (totalFiles : Nat) :
    ∀ (files : List FileData) (i : Nat) (s : ConverterState),
      (convertLoop env env.outputFormat env.quality env.newWidth env.newHeight
        totalFiles i files s).1.trace = s.trace ++ runEvents env totalFiles i files
  | [], i, s => by simp [convertLoop, runEvents]
  | fileData :: rest, i, s => by
    unfold convertLoop
    rw [if_neg (by simp [hq]), convertSingleImage_eq]
    cases ho : outcome env fileData with
    | none =>
      simp only
      rw [if_neg (by simp [hq]), convertLoop_trace_quiet env hq totalFiles rest (i + 1)]
      simp [runEvents, ho]
    | some out =>
      simp only
      rw [if_neg (by simp [hq]), convertLoop_trace_quiet env hq totalFiles rest (i + 1)]
      simp [runEvents, ho]

/-! ## The claims, continued -/

/-- C11: for all positive integers `tw` and `th` and every original size `w`, `h` (positive
or not), `calculateDimensions(w, h, absent, absent)` returns `(w, h)` unchanged and
`calculateDimensions(w, h, tw, th)` returns `(tw, th)` verbatim, whatever the ratio of `w`
to `h`. -/
theorem calculateDimensions_identity_and_override (w h tw th : Nat)
    (htw : 0 < tw) (hth : 0 < th) :
    calculateDimensions (JSNum.ofNat w) (JSNum.ofNat h) none none
      = { width := JSNum.ofNat w, height := JSNum.ofNat h } ∧
    calculateDimensions (JSNum.ofNat w) (JSNum.ofNat h)
        (some (JSNum.ofNat tw)) (some (JSNum.ofNat th))
      = { width := JSNum.ofNat tw, height := JSNum.ofNat th } :=
  ⟨calculateDimensions_neither _ _, calculateDimensions_both _ _ tw th htw hth⟩

/-- Witness of C11: a 1000 × 10 image with both targets given as 7 × 900. -/
theorem calculateDimensions_identity_and_override_witness :
    calculateDimensions (JSNum.ofNat 1000) (JSNum.ofNat 10) none none
      = { width := JSNum.ofNat 1000, height := JSNum.ofNat 10 } ∧
    calculateDimensions (JSNum.ofNat 1000) (JSNum.ofNat 10)
        (some (JSNum.ofNat 7)) (some (JSNum.ofNat 900))
      = { width := JSNum.ofNat 7, height := JSNum.ofNat 900 } :=
  calculateDimensions_identity_and_override 1000 10 7 900 (by decide) (by decide)

/-- C12, as stated, fails: in a run over three sources the first event is the progress
report `1 of 3`, emitted before any conversion has settled, so the reported count exceeds
the number of finished conversions. -/
theorem progress_reported_before_settled :
    threeUploaded.trace = [] ∧
    (convertImages quietEnv threeUploaded).1.trace.head? = some (Event.progress 1 3) ∧
    reportedWithinSettled 0 (convertImages quietEnv threeUploaded).1.trace = false := by
  decide

/-- On every platform, faults included, the events a call adds are whole triples, one per
item the loop went through. -/
theorem convertImages_trace_triples (env : Env) (s : ConverterState) :
    ∃ ev : List Event,
      (convertImages env s).1.trace = s.trace ++ ev ∧
      itemTriples s.uploadedFiles.length 0 ev = true := by
  unfold convertImages
  split
  · exact ⟨[], by simp, rfl⟩
  · split
    · exact ⟨[], by simp, rfl⟩
    · exact tryBlock_trace env { s with isConverting := true }

/-- C12, amended: on a platform whose page statements all work, a run of `convertImages`
over `n` sources, started while no batch is running, adds exactly three events per source,
in source order: the progress report `i` of `n` (1-indexed), then the attempt on source
`i`, then the settling of source `i`.  So the progress report for item `i` is emitted
before the conversion of item `i` starts, when exactly `i - 1` conversions have settled:
the reported count is one above the number of finished conversions. -/
theorem progress_precedes_conversion (env : Env) (s : ConverterState)
    (hq : ∀ st, env.fault st = false) (hidle : s.isConverting = false) :
    (convertImages env s).1.trace
      = s.trace ++ runEvents env s.uploadedFiles.length 0 s.uploadedFiles ∧
    (runEvents env s.uploadedFiles.length 0 s.uploadedFiles).length
      = 3 * s.uploadedFiles.length ∧
    itemTriples s.uploadedFiles.length 0
      (runEvents env s.uploadedFiles.length 0 s.uploadedFiles) = true := by
  refine ⟨?_, length_runEvents env _ _ _, itemTriples_runEvents env _ _ _⟩
  by_cases hne : s.uploadedFiles = []
  · have hc : convertImages env s = (s, Completion.fulfilled) := by
      unfold convertImages
      rw [if_pos (by simp [hne])]
    rw [hc, hne]
    simp [runEvents]
  · rw [convertImages_quiet env s hq hidle hne]
    have h := convertLoop_trace_quiet env hq s.uploadedFiles.length s.uploadedFiles 0
      { revokeAll (s.convertedFiles.map (fun f => f.url)) { s with isConverting := true }
        with convertedFiles := [] }
    rw [revokeAll_eq] at h
    rw [revokeAll_eq]
    exact h

/-- Witness of C12 amended: the run over three sources, the second of which fails, adds
nine events, beginning with the report `1 of 3` and the attempt on the first source. -/
theorem progress_precedes_conversion_witness :
    (convertImages secondFailsEnv threeUploaded).1.trace
      = threeUploaded.trace ++ runEvents secondFailsEnv threeUploaded.uploadedFiles.length 0
          threeUploaded.uploadedFiles ∧
    (convertImages secondFailsEnv threeUploaded).1.trace.length = 9 ∧
    (convertImages secondFailsEnv threeUploaded).1.trace.take 2
      = [Event.progress 1 3,
         Event.attempt 0 { id := 0, file := { name := "a.png", size := 1, type := "image/png" },
                           name := "a.png", type := "image/png", url := 0 }] :=
  ⟨(progress_precedes_conversion secondFailsEnv threeUploaded (fun _ => rfl) (by decide)).1,
    by decide, by decide⟩

/-- C13: in every state in which `isConverting` is true or `uploadedFiles` is empty,
`convertImages` returns (its promise fulfils) with the state unchanged: the two lists, the
guard, the live object URLs, the log of revocations, the next fresh URL and the record of
progress reports and conversion attempts are what they were; in particular existing
results are kept. -/
theorem convertImages_guarded_noop (env : Env) (s : ConverterState)
    (h : s.isConverting = true ∨ s.uploadedFiles = []) :
    convertImages env s = (s, Completion.fulfilled) ∧
    (convertImages env s).1.uploadedFiles = s.uploadedFiles ∧
    (convertImages env s).1.convertedFiles = s.convertedFiles ∧
    (convertImages env s).1.isConverting = s.isConverting ∧
    (convertImages env s).1.live = s.live ∧
    (convertImages env s).1.revoked = s.revoked ∧
    (convertImages env s).1.nextUrl = s.nextUrl ∧
    (convertImages env s).1.trace = s.trace := by
  have hc : convertImages env s = (s, Completion.fulfilled) := by
    unfold convertImages
    rw [if_pos]
    rcases h with h | h
    · simp [h]
    · simp [h]
  rw [hc]
  exact ⟨rfl, rfl, rfl, rfl, rfl, rfl, rfl, rfl⟩

/-- Witness of C13: with three results held and no source registered, the call keeps the
three results. -/
theorem convertImages_guarded_noop_witness :
    resultsOnlyState.uploadedFiles = [] ∧
    resultsOnlyState.convertedFiles.length = 3 ∧
    convertImages quietEnv resultsOnlyState = (resultsOnlyState, Completion.fulfilled) :=
  ⟨by decide, by decide,
    (convertImages_guarded_noop quietEnv resultsOnlyState (Or.inr (by decide))).1⟩

/-- C14: `calculateDimensions` treats a target that is `0` or `NaN` exactly like an absent
one: for every original size `w`, `h` and every value `t` of the other target (absent or
any number), the results for `0`, for `NaN` and for an absent target coincide, for the
width argument and for the height argument; and with both targets `0` or `NaN` the
original size is returned. -/
theorem calculateDimensions_falsy_target (w h : JSNum) (t : Target) :
    calculateDimensions w h (some (JSNum.fin 0)) t = calculateDimensions w h none t ∧
    calculateDimensions w h (some JSNum.nan) t = calculateDimensions w h none t ∧
    calculateDimensions w h t (some (JSNum.fin 0)) = calculateDimensions w h t none ∧
    calculateDimensions w h t (some JSNum.nan) = calculateDimensions w h t none ∧
    calculateDimensions w h (some (JSNum.fin 0)) (some (JSNum.fin 0))
      = { width := w, height := h } ∧
    calculateDimensions w h (some (JSNum.fin 0)) (some JSNum.nan)
      = { width := w, height := h } ∧
    calculateDimensions w h (some JSNum.nan) (some (JSNum.fin 0))
      = { width := w, height := h } ∧
    calculateDimensions w h (some JSNum.nan) (some JSNum.nan)
      = { width := w, height := h } := by
  have h0 : truthy (some (JSNum.fin 0)) = none := by
    simp [truthy]
  have hn : truthy (some JSNum.nan) = none := rfl
  have ha : truthy none = none := rfl
  unfold calculateDimensions
  rw [h0, hn, ha]
  exact ⟨rfl, rfl, rfl, rfl, rfl, rfl, rfl, rfl⟩

end ImageConverter
